import Mathlib

/-!
Verification of the `binstalk-git-repo-api` GitHub API client
(`crates/binstalk-git-repo-api/src/gh_api_client.rs` and
`crates/binstalk-git-repo-api/src/gh_api_client/common.rs`).

Strings that travel through the URL machinery are modelled at the byte
level (`Bytes := List Nat`, each element a byte value `< 256`), because
percent decoding and UTF-8 lossy decoding operate on bytes.
-/

namespace Binstalk

/-- Byte strings: the UTF-8 bytes of a Rust `str`/`CompactString`, or raw
percent-decoded bytes. -/
abbrev Bytes := List Nat

/-- Standard UTF-8 encoding of one Unicode code point (1-4 bytes). -/
def utf8EncodeChar (c : Nat) : List Nat :=
  if c < 128 then [c]
  else if c < 2048 then [192 + c / 64, 128 + c % 64]
  else if c < 65536 then [224 + c / 4096, 128 + c / 64 % 64, 128 + c % 64]
  else [240 + c / 262144, 128 + c / 4096 % 64, 128 + c / 64 % 64, 128 + c % 64]

/-- UTF-8 encoding of a list of code points. -/
def utf8EncodeAll : List Nat → Bytes
  | [] => []
  | c :: cs => utf8EncodeChar c ++ utf8EncodeAll cs

/-- The UTF-8 bytes of a Lean string literal (used to write concrete
byte-string constants). -/
def strBytes (s : String) : Bytes :=
  utf8EncodeAll (s.data.map Char.toNat)

/-! ## Percent encoding (`common.rs`, `percent_encode_http_url_path`)

The `SPECIAL_PATH_SEGMENT` ascii set of `percent_encode_http_url_path`:
`CONTROLS` (0x00-0x1F and 0x7F) plus space `"` `<` `>` backtick (fragment
set), `#` `?` `{` `}` (path set), `/` `%` (path-segment set) and `\`
(special path segment set).  The `percent-encoding` crate always encodes
non-ASCII bytes in addition to the bytes of the set. -/

/-- Membership in the `SPECIAL_PATH_SEGMENT` `AsciiSet` of
`percent_encode_http_url_path`. -/
def inSpecialPathSegmentSet (b : Nat) : Bool :=
  b < 32 || b == 127 || b == 32 || b == 34 || b == 60 || b == 62 || b == 96
    || b == 35 || b == 63 || b == 123 || b == 125 || b == 47 || b == 37
    || b == 92

/-- A byte is percent-encoded iff it is non-ASCII or belongs to the set
(`AsciiSet::should_percent_encode` in the `percent-encoding` crate). -/
def shouldPercentEncode (b : Nat) : Bool :=
  128 ≤ b || inSpecialPathSegmentSet b

/-- Upper-case hex digit (as a byte) of a value `< 16`. -/
def hexUpperDigit (n : Nat) : Nat :=
  if n < 10 then 48 + n else 55 + n

/-- Percent-encode one byte: `%XY` when escaped, the byte itself otherwise. -/
def percentEncodeByte (b : Nat) : Bytes :=
  if shouldPercentEncode b then [37, hexUpperDigit (b / 16), hexUpperDigit (b % 16)]
  else [b]

/-- `percent_encode_http_url_path` from `common.rs`: percent-encode every
byte that is non-ASCII or in the `SPECIAL_PATH_SEGMENT` set. -/
def percent_encode_http_url_path : Bytes → Bytes
  | [] => []
  | b :: rest => percentEncodeByte b ++ percent_encode_http_url_path rest

/-- Value of a hex-digit byte (`0-9`, `A-F`, `a-f`), as accepted by
`percent_decode_str`. -/
def hexVal (b : Nat) : Option Nat :=
  if 48 ≤ b ∧ b ≤ 57 then some (b - 48)
  else if 65 ≤ b ∧ b ≤ 70 then some (b - 55)
  else if 97 ≤ b ∧ b ≤ 102 then some (b - 87)
  else none

/-- The byte encoded by two hex digits at the head of the list, when
both are hex digits. -/
def hex2 : Bytes → Option Nat
  | h1 :: h2 :: _ =>
    match hexVal h1, hexVal h2 with
    | some a, some b => some (16 * a + b)
    | _, _ => none
  | _ => none

mutual

/-- `percent_decode_str` of the `percent-encoding` crate: `%XY` with two
hex digits decodes to one byte; a `%` not followed by two hex digits is
copied literally. -/
def percentDecodeBytes : Bytes → Bytes
  | [] => []
  | b :: rest =>
    if b = 37 ∧ (hex2 rest).isSome then (hex2 rest).getD 0 :: decodeSkip2 rest
    else b :: percentDecodeBytes rest

/-- Continue decoding after the two consumed hex digits. -/
def decodeSkip2 : Bytes → Bytes
  | _ :: r => decodeSkip1 r
  | [] => []

/-- Continue decoding after one more consumed byte. -/
def decodeSkip1 : Bytes → Bytes
  | _ :: r => percentDecodeBytes r
  | [] => []

end

theorem percentDecode_cons_escape {h1 h2 v : Nat} (r : Bytes)
    (hhex : hex2 (h1 :: h2 :: r) = some v) :
    percentDecodeBytes (37 :: h1 :: h2 :: r) = v :: percentDecodeBytes r := by
  conv_lhs => rw [percentDecodeBytes]
  rw [if_pos ⟨rfl, by simp [hhex]⟩]
  show (hex2 (h1 :: h2 :: r)).getD 0 :: decodeSkip2 (h1 :: h2 :: r)
      = v :: percentDecodeBytes r
  rw [hhex]
  rfl

theorem percentDecode_cons_ne {b : Nat} (rest : Bytes) (hne : b ≠ 37) :
    percentDecodeBytes (b :: rest) = b :: percentDecodeBytes rest := by
  conv_lhs => rw [percentDecodeBytes]
  rw [if_neg (by simp [hne])]

/-! ## UTF-8 validation and lossy decoding (`str::from_utf8` table) -/

/-- UTF-8 continuation byte: `0x80..=0xBF`. -/
def isCont (b : Nat) : Bool := 128 ≤ b && b ≤ 191

/-- Constraint on the first continuation byte of a 3-byte sequence
(excludes overlong encodings and surrogates). -/
def cont3 (b0 b1 : Nat) : Bool :=
  if b0 = 224 then 160 ≤ b1 && b1 ≤ 191
  else if b0 = 237 then 128 ≤ b1 && b1 ≤ 159
  else isCont b1

/-- Constraint on the first continuation byte of a 4-byte sequence
(excludes overlong encodings and code points above U+10FFFF). -/
def cont4 (b0 b1 : Nat) : Bool :=
  if b0 = 240 then 144 ≤ b1 && b1 ≤ 191
  else if b0 = 244 then 128 ≤ b1 && b1 ≤ 143
  else isCont b1

/-- Guard: the tail carries the one continuation byte of a 2-byte scalar. -/
def ok2 : Bytes → Bool
  | b1 :: _ => isCont b1
  | [] => false

/-- Guard: the tail carries the two continuation bytes of a 3-byte scalar. -/
def ok3 (b0 : Nat) : Bytes → Bool
  | b1 :: b2 :: _ => cont3 b0 b1 && isCont b2
  | _ => false

/-- Guard: the tail carries the three continuation bytes of a 4-byte scalar. -/
def ok4 (b0 : Nat) : Bytes → Bool
  | b1 :: b2 :: b3 :: _ => cont4 b0 b1 && isCont b2 && isCont b3
  | _ => false

mutual

/-- UTF-8 validity: the byte list splits into well-formed scalar
encodings (the `str::from_utf8` acceptance table: no overlong encodings,
no surrogates, maximum U+10FFFF). -/
def validUtf8 : Bytes → Bool
  | [] => true
  | b0 :: rest =>
    if b0 < 128 then validUtf8 rest
    else if b0 < 194 then false
    else if b0 ≤ 223 then ok2 rest && validSkip1 rest
    else if b0 ≤ 239 then ok3 b0 rest && validSkip2 rest
    else if b0 ≤ 244 then ok4 b0 rest && validSkip3 rest
    else false

/-- Validity of the remainder after one continuation byte. -/
def validSkip1 : Bytes → Bool
  | _ :: r => validUtf8 r
  | [] => false

/-- Validity of the remainder after two continuation bytes. -/
def validSkip2 : Bytes → Bool
  | _ :: r => validSkip1 r
  | [] => false

/-- Validity of the remainder after three continuation bytes. -/
def validSkip3 : Bytes → Bool
  | _ :: r => validSkip2 r
  | [] => false

end

/-- The UTF-8 bytes of the replacement character U+FFFD. -/
def replacementBytes : Bytes := [239, 191, 189]

mutual

/-- Lossy UTF-8 decoding (`decode_utf8_lossy` / `String::from_utf8_lossy`):
well-formed scalar encodings are copied; at an ill-formed position the
replacement character U+FFFD (bytes `EF BF BD`) is emitted.  (The std
decoder may consume a maximal ill-formed subpart of several bytes per
replacement; this model consumes one byte.  Both variants emit only valid
UTF-8 and are the identity on valid input, the two properties used here.) -/
def utf8Lossy : Bytes → Bytes
  | [] => []
  | b0 :: rest =>
    if b0 < 128 then b0 :: utf8Lossy rest
    else if b0 < 194 then replacementBytes ++ utf8Lossy rest
    else if b0 ≤ 223 then
      if ok2 rest then b0 :: lossySkip1 rest
      else replacementBytes ++ utf8Lossy rest
    else if b0 ≤ 239 then
      if ok3 b0 rest then b0 :: lossySkip2 rest
      else replacementBytes ++ utf8Lossy rest
    else if b0 ≤ 244 then
      if ok4 b0 rest then b0 :: lossySkip3 rest
      else replacementBytes ++ utf8Lossy rest
    else replacementBytes ++ utf8Lossy rest

/-- Copy one continuation byte, then continue decoding. -/
def lossySkip1 : Bytes → Bytes
  | b :: r => b :: utf8Lossy r
  | [] => []

/-- Copy two continuation bytes, then continue decoding. -/
def lossySkip2 : Bytes → Bytes
  | b :: r => b :: lossySkip1 r
  | [] => []

/-- Copy three continuation bytes, then continue decoding. -/
def lossySkip3 : Bytes → Bytes
  | b :: r => b :: lossySkip2 r
  | [] => []

end

/-- `percent_decode_http_url_path` from `common.rs`: decode (with lossy
UTF-8 re-validation) only when a `%` is present, otherwise return the
input unchanged. -/
def percent_decode_http_url_path (input : Bytes) : Bytes :=
  if input.contains 37 then utf8Lossy (percentDecodeBytes input) else input

/-! ## Step lemmas for `validUtf8` and `utf8Lossy` -/

theorem validUtf8_ascii {b0 : Nat} (rest : Bytes) (h : b0 < 128) :
    validUtf8 (b0 :: rest) = validUtf8 rest := by
  conv_lhs => rw [validUtf8]
  rw [if_pos h]

theorem validUtf8_badlead {b0 : Nat} (rest : Bytes) (h1 : ¬b0 < 128)
    (h2 : b0 < 194) : validUtf8 (b0 :: rest) = false := by
  conv_lhs => rw [validUtf8]
  rw [if_neg h1, if_pos h2]

theorem validUtf8_two {b0 : Nat} (b1 : Nat) (rest2 : Bytes) (h1 : ¬b0 < 128)
    (h2 : ¬b0 < 194) (h3 : b0 ≤ 223) :
    validUtf8 (b0 :: b1 :: rest2) = (isCont b1 && validUtf8 rest2) := by
  conv_lhs => rw [validUtf8]
  rw [if_neg h1, if_neg h2, if_pos h3]
  rfl

theorem validUtf8_two_nil {b0 : Nat} (h1 : ¬b0 < 128) (h2 : ¬b0 < 194)
    (h3 : b0 ≤ 223) : validUtf8 [b0] = false := by
  conv_lhs => rw [validUtf8]
  rw [if_neg h1, if_neg h2, if_pos h3]
  rfl

theorem validUtf8_three {b0 : Nat} (b1 b2 : Nat) (rest2 : Bytes)
    (h1 : ¬b0 < 128) (h2 : ¬b0 < 194) (h3 : ¬b0 ≤ 223) (h4 : b0 ≤ 239) :
    validUtf8 (b0 :: b1 :: b2 :: rest2)
      = ((cont3 b0 b1 && isCont b2) && validUtf8 rest2) := by
  conv_lhs => rw [validUtf8]
  rw [if_neg h1, if_neg h2, if_neg h3, if_pos h4]
  rfl

theorem validUtf8_three_one {b0 : Nat} (b1 : Nat) (h1 : ¬b0 < 128)
    (h2 : ¬b0 < 194) (h3 : ¬b0 ≤ 223) (h4 : b0 ≤ 239) :
    validUtf8 [b0, b1] = false := by
  conv_lhs => rw [validUtf8]
  rw [if_neg h1, if_neg h2, if_neg h3, if_pos h4]
  rfl

theorem validUtf8_three_nil {b0 : Nat} (h1 : ¬b0 < 128) (h2 : ¬b0 < 194)
    (h3 : ¬b0 ≤ 223) (h4 : b0 ≤ 239) : validUtf8 [b0] = false := by
  conv_lhs => rw [validUtf8]
  rw [if_neg h1, if_neg h2, if_neg h3, if_pos h4]
  rfl

theorem validUtf8_four {b0 : Nat} (b1 b2 b3 : Nat) (rest2 : Bytes)
    (h1 : ¬b0 < 128) (h2 : ¬b0 < 194) (h3 : ¬b0 ≤ 223) (h4 : ¬b0 ≤ 239)
    (h5 : b0 ≤ 244) :
    validUtf8 (b0 :: b1 :: b2 :: b3 :: rest2)
      = ((cont4 b0 b1 && isCont b2 && isCont b3) && validUtf8 rest2) := by
  conv_lhs => rw [validUtf8]
  rw [if_neg h1, if_neg h2, if_neg h3, if_neg h4, if_pos h5]
  rfl

theorem validUtf8_four_two {b0 : Nat} (b1 b2 : Nat) (h1 : ¬b0 < 128)
    (h2 : ¬b0 < 194) (h3 : ¬b0 ≤ 223) (h4 : ¬b0 ≤ 239) (h5 : b0 ≤ 244) :
    validUtf8 [b0, b1, b2] = false := by
  conv_lhs => rw [validUtf8]
  rw [if_neg h1, if_neg h2, if_neg h3, if_neg h4, if_pos h5]
  rfl

theorem validUtf8_four_one {b0 : Nat} (b1 : Nat) (h1 : ¬b0 < 128)
    (h2 : ¬b0 < 194) (h3 : ¬b0 ≤ 223) (h4 : ¬b0 ≤ 239) (h5 : b0 ≤ 244) :
    validUtf8 [b0, b1] = false := by
  conv_lhs => rw [validUtf8]
  rw [if_neg h1, if_neg h2, if_neg h3, if_neg h4, if_pos h5]
  rfl

theorem validUtf8_four_nil {b0 : Nat} (h1 : ¬b0 < 128) (h2 : ¬b0 < 194)
    (h3 : ¬b0 ≤ 223) (h4 : ¬b0 ≤ 239) (h5 : b0 ≤ 244) :
    validUtf8 [b0] = false := by
  conv_lhs => rw [validUtf8]
  rw [if_neg h1, if_neg h2, if_neg h3, if_neg h4, if_pos h5]
  rfl

theorem validUtf8_big {b0 : Nat} (rest : Bytes) (h1 : ¬b0 < 128)
    (h2 : ¬b0 < 194) (h3 : ¬b0 ≤ 223) (h4 : ¬b0 ≤ 239) (h5 : ¬b0 ≤ 244) :
    validUtf8 (b0 :: rest) = false := by
  conv_lhs => rw [validUtf8]
  rw [if_neg h1, if_neg h2, if_neg h3, if_neg h4, if_neg h5]

theorem utf8Lossy_ascii {b0 : Nat} (rest : Bytes) (h : b0 < 128) :
    utf8Lossy (b0 :: rest) = b0 :: utf8Lossy rest := by
  conv_lhs => rw [utf8Lossy]
  rw [if_pos h]

theorem utf8Lossy_badlead {b0 : Nat} (rest : Bytes) (h1 : ¬b0 < 128)
    (h2 : b0 < 194) :
    utf8Lossy (b0 :: rest) = replacementBytes ++ utf8Lossy rest := by
  conv_lhs => rw [utf8Lossy]
  rw [if_neg h1, if_pos h2]

theorem utf8Lossy_two_ok {b0 : Nat} (b1 : Nat) (rest2 : Bytes)
    (h1 : ¬b0 < 128) (h2 : ¬b0 < 194) (h3 : b0 ≤ 223)
    (hc : isCont b1 = true) :
    utf8Lossy (b0 :: b1 :: rest2) = b0 :: b1 :: utf8Lossy rest2 := by
  conv_lhs => rw [utf8Lossy]
  rw [if_neg h1, if_neg h2, if_pos h3,
    if_pos (show ok2 (b1 :: rest2) = true by simpa [ok2] using hc)]
  rfl

theorem utf8Lossy_two_fail {b0 : Nat} (rest : Bytes) (h1 : ¬b0 < 128)
    (h2 : ¬b0 < 194) (h3 : b0 ≤ 223) (hok : ok2 rest = false) :
    utf8Lossy (b0 :: rest) = replacementBytes ++ utf8Lossy rest := by
  conv_lhs => rw [utf8Lossy]
  rw [if_neg h1, if_neg h2, if_pos h3, if_neg (by simp [hok])]

theorem utf8Lossy_three_ok {b0 : Nat} (b1 b2 : Nat) (rest2 : Bytes)
    (h1 : ¬b0 < 128) (h2 : ¬b0 < 194) (h3 : ¬b0 ≤ 223) (h4 : b0 ≤ 239)
    (hok : ok3 b0 (b1 :: b2 :: rest2) = true) :
    utf8Lossy (b0 :: b1 :: b2 :: rest2) = b0 :: b1 :: b2 :: utf8Lossy rest2 := by
  conv_lhs => rw [utf8Lossy]
  rw [if_neg h1, if_neg h2, if_neg h3, if_pos h4, if_pos hok]
  rfl

theorem utf8Lossy_three_fail {b0 : Nat} (rest : Bytes) (h1 : ¬b0 < 128)
    (h2 : ¬b0 < 194) (h3 : ¬b0 ≤ 223) (h4 : b0 ≤ 239)
    (hok : ok3 b0 rest = false) :
    utf8Lossy (b0 :: rest) = replacementBytes ++ utf8Lossy rest := by
  conv_lhs => rw [utf8Lossy]
  rw [if_neg h1, if_neg h2, if_neg h3, if_pos h4, if_neg (by simp [hok])]

theorem utf8Lossy_four_ok {b0 : Nat} (b1 b2 b3 : Nat) (rest2 : Bytes)
    (h1 : ¬b0 < 128) (h2 : ¬b0 < 194) (h3 : ¬b0 ≤ 223) (h4 : ¬b0 ≤ 239)
    (h5 : b0 ≤ 244) (hok : ok4 b0 (b1 :: b2 :: b3 :: rest2) = true) :
    utf8Lossy (b0 :: b1 :: b2 :: b3 :: rest2)
      = b0 :: b1 :: b2 :: b3 :: utf8Lossy rest2 := by
  conv_lhs => rw [utf8Lossy]
  rw [if_neg h1, if_neg h2, if_neg h3, if_neg h4, if_pos h5, if_pos hok]
  rfl

theorem utf8Lossy_four_fail {b0 : Nat} (rest : Bytes) (h1 : ¬b0 < 128)
    (h2 : ¬b0 < 194) (h3 : ¬b0 ≤ 223) (h4 : ¬b0 ≤ 239) (h5 : b0 ≤ 244)
    (hok : ok4 b0 rest = false) :
    utf8Lossy (b0 :: rest) = replacementBytes ++ utf8Lossy rest := by
  conv_lhs => rw [utf8Lossy]
  rw [if_neg h1, if_neg h2, if_neg h3, if_neg h4, if_pos h5,
    if_neg (by simp [hok])]

theorem utf8Lossy_big {b0 : Nat} (rest : Bytes) (h1 : ¬b0 < 128)
    (h2 : ¬b0 < 194) (h3 : ¬b0 ≤ 223) (h4 : ¬b0 ≤ 239) (h5 : ¬b0 ≤ 244) :
    utf8Lossy (b0 :: rest) = replacementBytes ++ utf8Lossy rest := by
  conv_lhs => rw [utf8Lossy]
  rw [if_neg h1, if_neg h2, if_neg h3, if_neg h4, if_neg h5]

/-! ## Round-trip lemmas for percent coding -/

theorem validUtf8_replacement_append (t : Bytes) :
    validUtf8 (replacementBytes ++ t) = validUtf8 t := by
  show validUtf8 (239 :: 191 :: 189 :: t) = validUtf8 t
  rw [validUtf8_three 191 189 t (by omega) (by omega) (by omega) (by omega)]
  simp [cont3, isCont]

/-- Lossy decoding always produces valid UTF-8 (auxiliary, with an
explicit length bound for the induction). -/
theorem utf8Lossy_valid_aux :
    ∀ (n : Nat) (s : Bytes), s.length ≤ n → validUtf8 (utf8Lossy s) = true := by
  intro n
  induction n with
  | zero =>
    intro s hs
    rcases s with _ | ⟨b0, rest⟩
    · rfl
    · simp at hs
  | succ n ih =>
    intro s hs
    rcases s with _ | ⟨b0, rest⟩
    · rfl
    simp only [List.length_cons, Nat.add_le_add_iff_right] at hs
    by_cases hb1 : b0 < 128
    · rw [utf8Lossy_ascii rest hb1, validUtf8_ascii _ hb1]
      exact ih rest hs
    by_cases hb2 : b0 < 194
    · rw [utf8Lossy_badlead rest hb1 hb2, validUtf8_replacement_append]
      exact ih rest hs
    by_cases hb3 : b0 ≤ 223
    · cases hok : ok2 rest with
      | false =>
        rw [utf8Lossy_two_fail rest hb1 hb2 hb3 hok, validUtf8_replacement_append]
        exact ih rest hs
      | true =>
        rcases rest with _ | ⟨b1, rest2⟩
        · simp [ok2] at hok
        · have hc : isCont b1 = true := by simpa [ok2] using hok
          rw [utf8Lossy_two_ok b1 rest2 hb1 hb2 hb3 hc,
            validUtf8_two b1 _ hb1 hb2 hb3, hc, Bool.true_and]
          simp only [List.length_cons] at hs
          exact ih rest2 (by omega)
    by_cases hb4 : b0 ≤ 239
    · cases hok : ok3 b0 rest with
      | false =>
        rw [utf8Lossy_three_fail rest hb1 hb2 hb3 hb4 hok,
          validUtf8_replacement_append]
        exact ih rest hs
      | true =>
        rcases rest with _ | ⟨b1, _ | ⟨b2, rest2⟩⟩
        · simp [ok3] at hok
        · simp [ok3] at hok
        · have hc : (cont3 b0 b1 && isCont b2) = true := by simpa [ok3] using hok
          rw [utf8Lossy_three_ok b1 b2 rest2 hb1 hb2 hb3 hb4 hok,
            validUtf8_three b1 b2 _ hb1 hb2 hb3 hb4, hc, Bool.true_and]
          simp only [List.length_cons] at hs
          exact ih rest2 (by omega)
    by_cases hb5 : b0 ≤ 244
    · cases hok : ok4 b0 rest with
      | false =>
        rw [utf8Lossy_four_fail rest hb1 hb2 hb3 hb4 hb5 hok,
          validUtf8_replacement_append]
        exact ih rest hs
      | true =>
        rcases rest with _ | ⟨b1, _ | ⟨b2, _ | ⟨b3, rest2⟩⟩⟩
        · simp [ok4] at hok
        · simp [ok4] at hok
        · simp [ok4] at hok
        · have hc : (cont4 b0 b1 && isCont b2 && isCont b3) = true := by
            simpa [ok4] using hok
          rw [utf8Lossy_four_ok b1 b2 b3 rest2 hb1 hb2 hb3 hb4 hb5 hok,
            validUtf8_four b1 b2 b3 _ hb1 hb2 hb3 hb4 hb5, hc, Bool.true_and]
          simp only [List.length_cons] at hs
          exact ih rest2 (by omega)
    · rw [utf8Lossy_big rest hb1 hb2 hb3 hb4 hb5, validUtf8_replacement_append]
      exact ih rest hs

/-- Lossy decoding always produces valid UTF-8. -/
theorem utf8Lossy_valid (s : Bytes) : validUtf8 (utf8Lossy s) = true :=
  utf8Lossy_valid_aux s.length s (Nat.le_refl _)

/-- Lossy decoding is the identity on valid UTF-8 (auxiliary, with an
explicit length bound for the induction). -/
theorem utf8Lossy_of_valid_aux :
    ∀ (n : Nat) (s : Bytes), s.length ≤ n → validUtf8 s = true →
      utf8Lossy s = s := by
  intro n
  induction n with
  | zero =>
    intro s hs _
    rcases s with _ | ⟨b0, rest⟩
    · rfl
    · simp at hs
  | succ n ih =>
    intro s hs h
    rcases s with _ | ⟨b0, rest⟩
    · rfl
    simp only [List.length_cons, Nat.add_le_add_iff_right] at hs
    by_cases hb1 : b0 < 128
    · rw [validUtf8_ascii rest hb1] at h
      rw [utf8Lossy_ascii rest hb1, ih rest hs h]
    by_cases hb2 : b0 < 194
    · rw [validUtf8_badlead rest hb1 hb2] at h
      cases h
    by_cases hb3 : b0 ≤ 223
    · rcases rest with _ | ⟨b1, rest2⟩
      · rw [validUtf8_two_nil hb1 hb2 hb3] at h
        cases h
      · rw [validUtf8_two b1 rest2 hb1 hb2 hb3] at h
        simp only [Bool.and_eq_true] at h
        obtain ⟨hc, hr⟩ := h
        simp only [List.length_cons] at hs
        rw [utf8Lossy_two_ok b1 rest2 hb1 hb2 hb3 hc, ih rest2 (by omega) hr]
    by_cases hb4 : b0 ≤ 239
    · rcases rest with _ | ⟨b1, _ | ⟨b2, rest2⟩⟩
      · rw [validUtf8_three_nil hb1 hb2 hb3 hb4] at h
        cases h
      · rw [validUtf8_three_one b1 hb1 hb2 hb3 hb4] at h
        cases h
      · rw [validUtf8_three b1 b2 rest2 hb1 hb2 hb3 hb4] at h
        simp only [Bool.and_eq_true] at h
        obtain ⟨⟨hc1, hc2⟩, hr⟩ := h
        simp only [List.length_cons] at hs
        rw [utf8Lossy_three_ok b1 b2 rest2 hb1 hb2 hb3 hb4 (by simp [ok3, hc1, hc2]),
          ih rest2 (by omega) hr]
    by_cases hb5 : b0 ≤ 244
    · rcases rest with _ | ⟨b1, _ | ⟨b2, _ | ⟨b3, rest2⟩⟩⟩
      · rw [validUtf8_four_nil hb1 hb2 hb3 hb4 hb5] at h
        cases h
      · rw [validUtf8_four_one b1 hb1 hb2 hb3 hb4 hb5] at h
        cases h
      · rw [validUtf8_four_two b1 b2 hb1 hb2 hb3 hb4 hb5] at h
        cases h
      · rw [validUtf8_four b1 b2 b3 rest2 hb1 hb2 hb3 hb4 hb5] at h
        simp only [Bool.and_eq_true] at h
        obtain ⟨⟨⟨hc1, hc2⟩, hc3⟩, hr⟩ := h
        simp only [List.length_cons] at hs
        rw [utf8Lossy_four_ok b1 b2 b3 rest2 hb1 hb2 hb3 hb4 hb5
            (by simp [ok4, hc1, hc2, hc3]),
          ih rest2 (by omega) hr]
    · rw [validUtf8_big rest hb1 hb2 hb3 hb4 hb5] at h
      cases h

/-- Lossy decoding is the identity on valid UTF-8. -/
theorem utf8Lossy_of_valid (s : Bytes) (h : validUtf8 s = true) :
    utf8Lossy s = s :=
  utf8Lossy_of_valid_aux s.length s (Nat.le_refl _) h

theorem isCont_lt {b : Nat} (h : isCont b = true) : b < 256 := by
  simp only [isCont, Bool.and_eq_true, decide_eq_true_eq] at h
  omega

theorem cont3_lt {b0 b1 : Nat} (h : cont3 b0 b1 = true) : b1 < 256 := by
  simp only [cont3] at h
  split at h
  · simp only [Bool.and_eq_true, decide_eq_true_eq] at h
    omega
  split at h
  · simp only [Bool.and_eq_true, decide_eq_true_eq] at h
    omega
  · exact isCont_lt h

theorem cont4_lt {b0 b1 : Nat} (h : cont4 b0 b1 = true) : b1 < 256 := by
  simp only [cont4] at h
  split at h
  · simp only [Bool.and_eq_true, decide_eq_true_eq] at h
    omega
  split at h
  · simp only [Bool.and_eq_true, decide_eq_true_eq] at h
    omega
  · exact isCont_lt h

/-- Valid UTF-8 consists of bytes `< 256` (auxiliary, with an explicit
length bound for the induction). -/
theorem validUtf8_bytes_lt_aux :
    ∀ (n : Nat) (s : Bytes), s.length ≤ n → validUtf8 s = true →
      ∀ b ∈ s, b < 256 := by
  intro n
  induction n with
  | zero =>
    intro s hs _
    rcases s with _ | ⟨b0, rest⟩
    · simp
    · simp at hs
  | succ n ih =>
    intro s hs h
    rcases s with _ | ⟨b0, rest⟩
    · simp
    simp only [List.length_cons, Nat.add_le_add_iff_right] at hs
    by_cases hb1 : b0 < 128
    · rw [validUtf8_ascii rest hb1] at h
      intro b hb
      rcases List.mem_cons.1 hb with hb | hb
      · omega
      · exact ih rest hs h b hb
    by_cases hb2 : b0 < 194
    · rw [validUtf8_badlead rest hb1 hb2] at h
      cases h
    by_cases hb3 : b0 ≤ 223
    · rcases rest with _ | ⟨b1, rest2⟩
      · rw [validUtf8_two_nil hb1 hb2 hb3] at h
        cases h
      · rw [validUtf8_two b1 rest2 hb1 hb2 hb3] at h
        simp only [Bool.and_eq_true] at h
        obtain ⟨hc, hr⟩ := h
        simp only [List.length_cons] at hs
        intro b hb
        rcases List.mem_cons.1 hb with hb | hb
        · omega
        rcases List.mem_cons.1 hb with hb | hb
        · have := isCont_lt hc
          omega
        · exact ih rest2 (by omega) hr b hb
    by_cases hb4 : b0 ≤ 239
    · rcases rest with _ | ⟨b1, _ | ⟨b2, rest2⟩⟩
      · rw [validUtf8_three_nil hb1 hb2 hb3 hb4] at h
        cases h
      · rw [validUtf8_three_one b1 hb1 hb2 hb3 hb4] at h
        cases h
      · rw [validUtf8_three b1 b2 rest2 hb1 hb2 hb3 hb4] at h
        simp only [Bool.and_eq_true] at h
        obtain ⟨⟨hc1, hc2⟩, hr⟩ := h
        simp only [List.length_cons] at hs
        intro b hb
        rcases List.mem_cons.1 hb with hb | hb
        · omega
        rcases List.mem_cons.1 hb with hb | hb
        · have := cont3_lt hc1
          omega
        rcases List.mem_cons.1 hb with hb | hb
        · have := isCont_lt hc2
          omega
        · exact ih rest2 (by omega) hr b hb
    by_cases hb5 : b0 ≤ 244
    · rcases rest with _ | ⟨b1, _ | ⟨b2, _ | ⟨b3, rest2⟩⟩⟩
      · rw [validUtf8_four_nil hb1 hb2 hb3 hb4 hb5] at h
        cases h
      · rw [validUtf8_four_one b1 hb1 hb2 hb3 hb4 hb5] at h
        cases h
      · rw [validUtf8_four_two b1 b2 hb1 hb2 hb3 hb4 hb5] at h
        cases h
      · rw [validUtf8_four b1 b2 b3 rest2 hb1 hb2 hb3 hb4 hb5] at h
        simp only [Bool.and_eq_true] at h
        obtain ⟨⟨⟨hc1, hc2⟩, hc4⟩, hr⟩ := h
        simp only [List.length_cons] at hs
        intro b hb
        rcases List.mem_cons.1 hb with hb | hb
        · omega
        rcases List.mem_cons.1 hb with hb | hb
        · have := cont4_lt hc1
          omega
        rcases List.mem_cons.1 hb with hb | hb
        · have := isCont_lt hc2
          omega
        rcases List.mem_cons.1 hb with hb | hb
        · have := isCont_lt hc4
          omega
        · exact ih rest2 (by omega) hr b hb
    · rw [validUtf8_big rest hb1 hb2 hb3 hb4 hb5] at h
      cases h

/-- Valid UTF-8 consists of bytes `< 256`. -/
theorem validUtf8_bytes_lt {s : Bytes} (h : validUtf8 s = true) :
    ∀ b ∈ s, b < 256 :=
  validUtf8_bytes_lt_aux s.length s (Nat.le_refl _) h

theorem hexVal_hexUpperDigit {n : Nat} (h : n < 16) :
    hexVal (hexUpperDigit n) = some n := by
  interval_cases n <;> rfl

/-- Percent decoding inverts percent encoding, at the byte level. -/
theorem percentDecode_encode (s : Bytes) (h : ∀ b ∈ s, b < 256) :
    percentDecodeBytes (percent_encode_http_url_path s) = s := by
  induction s with
  | nil => rfl
  | cons b rest ih =>
    have hb : b < 256 := h b (by simp)
    have hrest : ∀ x ∈ rest, x < 256 := fun x hx => h x (by simp [hx])
    by_cases hesc : shouldPercentEncode b = true
    · have e1 : hexVal (hexUpperDigit (b / 16)) = some (b / 16) :=
        hexVal_hexUpperDigit (by omega)
      have e2 : hexVal (hexUpperDigit (b % 16)) = some (b % 16) :=
        hexVal_hexUpperDigit (by omega)
      have henc : percent_encode_http_url_path (b :: rest)
          = 37 :: hexUpperDigit (b / 16) :: hexUpperDigit (b % 16)
            :: percent_encode_http_url_path rest := by
        simp [percent_encode_http_url_path, percentEncodeByte, hesc]
      have hhex : hex2 (hexUpperDigit (b / 16) :: hexUpperDigit (b % 16)
          :: percent_encode_http_url_path rest) = some (16 * (b / 16) + b % 16) := by
        simp [hex2, e1, e2]
      rw [henc, percentDecode_cons_escape _ hhex, ih hrest]
      congr 1
      omega
    · have hne : b ≠ 37 := by
        intro e
        subst e
        simp [shouldPercentEncode, inSpecialPathSegmentSet] at hesc
      have henc : percent_encode_http_url_path (b :: rest)
          = b :: percent_encode_http_url_path rest := by
        simp [percent_encode_http_url_path, percentEncodeByte, hesc]
      rw [henc, percentDecode_cons_ne _ hne, ih hrest]

/-- If the encoding contains no `%` then nothing was escaped and the
encoding is the identity. -/
theorem encode_eq_self_of_not_contains (s : Bytes)
    (h : (percent_encode_http_url_path s).contains 37 = false) :
    percent_encode_http_url_path s = s := by
  induction s with
  | nil => rfl
  | cons b rest ih =>
    by_cases hesc : shouldPercentEncode b = true
    · exfalso
      simp [percent_encode_http_url_path, percentEncodeByte, hesc] at h
    · simp only [percent_encode_http_url_path, percentEncodeByte, hesc,
        if_false, Bool.false_eq_true, List.singleton_append] at h ⊢
      simp only [List.contains_cons, Bool.or_eq_false_iff] at h
      rw [ih h.2]

/-- Round trip: decoding the encoding of a valid-UTF-8 byte string gives
the string back. -/
theorem decode_encode_of_valid (t : Bytes) (hv : validUtf8 t = true) :
    percent_decode_http_url_path (percent_encode_http_url_path t) = t := by
  rw [percent_decode_http_url_path]
  by_cases hc : (percent_encode_http_url_path t).contains 37 = true
  · rw [if_pos hc, percentDecode_encode t (validUtf8_bytes_lt hv),
      utf8Lossy_of_valid t hv]
  · rw [if_neg hc]
    exact encode_eq_self_of_not_contains t (by simpa using hc)

/-- The output of `percent_decode_http_url_path` on valid-UTF-8 input is
valid UTF-8. -/
theorem decode_valid (s : Bytes) (hv : validUtf8 s = true) :
    validUtf8 (percent_decode_http_url_path s) = true := by
  rw [percent_decode_http_url_path]
  by_cases hc : s.contains 37 = true
  · rw [if_pos hc]
    exact utf8Lossy_valid _
  · rw [if_neg hc]
    exact hv

/-! ## The URL model and `GhReleaseArtifact::try_extract_from_url`
(`gh_api_client.rs`, lines 53-83)

A parsed `url::Url` is modelled through the accessors the code uses:
`scheme`, `domain()` (`some` only when the host is a domain name),
`path_segments()` (`some` iff the URL is not cannot-be-a-base; the list of
`/`-separated segments of the path), `query()` and `fragment()`. -/

/-- The accessor view of a parsed `url::Url`. -/
structure Url where
  scheme : Bytes
  domain : Option Bytes
  pathSegments : Option (List Bytes)
  query : Option Bytes
  fragment : Option Bytes
  deriving DecidableEq, Repr

/-- `GhRepo` (owner + repository name). -/
structure GhRepo where
  owner : Bytes
  repo : Bytes
  deriving DecidableEq, Repr

/-- `GhRepo::repo_url`: `https://github.com/{owner}/{repo}`. -/
def repo_url (r : GhRepo) : Bytes :=
  strBytes "https://github.com/" ++ r.owner ++ strBytes "/" ++ r.repo

/-- `GhRelease`: the keys required to identify a github release. -/
structure GhRelease where
  owner : Bytes
  repo : Bytes
  tag : Bytes
  deriving DecidableEq, Repr

/-- `GhReleaseArtifact`: the Github release and one of its artifacts. -/
structure GhReleaseArtifact where
  release : GhRelease
  artifact_name : Bytes
  deriving DecidableEq, Repr

/-- `GhReleaseArtifact::try_extract_from_url`: accept exactly
`github.com` URLs whose path is
`/{owner}/{repo}/releases/download/{tag}/{artifact_name}` with no extra
segment, no fragment and no query; percent-decode the four captured
segments.  (The scheme is never examined by the code.) -/
def try_extract_from_url (url : Url) : Option GhReleaseArtifact :=
  if url.domain ≠ some (strBytes "github.com") then none
  else
    match url.pathSegments with
    | none => none
    | some [owner, repo, s2, s3, tag, artifact_name] =>
      if s2 = strBytes "releases" ∧ s3 = strBytes "download"
          ∧ url.fragment = none ∧ url.query = none then
        some
          { release :=
              { owner := percent_decode_http_url_path owner
                repo := percent_decode_http_url_path repo
                tag := percent_decode_http_url_path tag }
            artifact_name := percent_decode_http_url_path artifact_name }
      else none
    | some _ => none

/-- Characterization of successful extraction: exactly the 6-segment
`releases/download` shape on host `github.com` with no fragment and no
query, the four captured segments percent-decoded. -/
theorem try_extract_eq_some_iff (u : Url) (r : GhReleaseArtifact) :
    try_extract_from_url u = some r ↔
      ∃ o rp t a,
        u.domain = some (strBytes "github.com")
        ∧ u.pathSegments
            = some [o, rp, strBytes "releases", strBytes "download", t, a]
        ∧ u.fragment = none ∧ u.query = none
        ∧ r = { release :=
                  { owner := percent_decode_http_url_path o
                    repo := percent_decode_http_url_path rp
                    tag := percent_decode_http_url_path t }
                artifact_name := percent_decode_http_url_path a } := by
  rw [try_extract_from_url]
  split
  · rename_i hdom
    constructor
    · intro h
      cases h
    · rintro ⟨o, rp, t, a, hd, -⟩
      exact absurd hd hdom
  · rename_i hdom
    have hdom' : u.domain = some (strBytes "github.com") := not_not.mp hdom
    split
    · rename_i hseg
      constructor
      · intro h
        cases h
      · rintro ⟨o, rp, t, a, -, hs, -⟩
        rw [hseg] at hs
        cases hs
    · rename_i o rp s2 s3 t a hseg
      split
      · rename_i hcond
        obtain ⟨hs2, hs3, hf, hq⟩ := hcond
        constructor
        · intro h
          injection h with h
          exact ⟨o, rp, t, a, hdom', by rw [hseg, hs2, hs3], hf, hq, h.symm⟩
        · rintro ⟨o', rp', t', a', -, hs, -, -, hr⟩
          rw [hseg] at hs
          injection hs with hs
          obtain ⟨e1, e2, e3, e4, e5, e6⟩ :
              o = o' ∧ rp = rp' ∧ s2 = strBytes "releases"
                ∧ s3 = strBytes "download" ∧ t = t' ∧ a = a' := by
            repeat' constructor <;> injection hs with h hs
            all_goals first | exact h | injection hs
          subst e1
          subst e2
          subst e5
          subst e6
          rw [hr]
      · rename_i hcond
        constructor
        · intro h
          cases h
        · rintro ⟨o', rp', t', a', -, hs, hf, hq, -⟩
          rw [hseg] at hs
          injection hs with hs
          obtain ⟨-, -, e3, e4, -, -⟩ :
              o = o' ∧ rp = rp' ∧ s2 = strBytes "releases"
                ∧ s3 = strBytes "download" ∧ t = t' ∧ a = a' := by
            repeat' constructor <;> injection hs with h hs
            all_goals first | exact h | injection hs
          exact (hcond ⟨e3, e4, hf, hq⟩).elim
    · rename_i hne hseg
      constructor
      · intro h
        cases h
      · rintro ⟨o', rp', t', a', -, hs, -⟩
        rw [hseg] at hs
        injection hs with hs
        exact (hne o' rp' (strBytes "releases") (strBytes "download") t' a' hs).elim

/-- Segment substitution used by the round-trip property: replace the
four captured path segments by the percent-encodings of the decoded
values. -/
def substituteEncodedSegments (u : Url) (r : GhReleaseArtifact) : Url :=
  { u with pathSegments := some (
      [percent_encode_http_url_path r.release.owner,
       percent_encode_http_url_path r.release.repo,
       strBytes "releases", strBytes "download",
       percent_encode_http_url_path r.release.tag,
       percent_encode_http_url_path r.artifact_name]) }

/-- The decoded value of a valid-UTF-8 segment is valid UTF-8. -/
theorem decode_of_valid_valid (s : Bytes) (hv : validUtf8 s = true) :
    validUtf8 (percent_decode_http_url_path s) = true :=
  decode_valid s hv

/-- `https://github.com/rustsec/rustsec/releases/download/cargo-audit%2Fv0.17.6/cargo-audit-x86_64-unknown-linux-gnu-v0.17.6.tgz`. -/
def cargoAuditUrl : Url :=
  { scheme := strBytes "https"
    domain := some (strBytes "github.com")
    pathSegments := some [strBytes "rustsec", strBytes "rustsec",
      strBytes "releases", strBytes "download",
      strBytes "cargo-audit%2Fv0.17.6",
      strBytes "cargo-audit-x86_64-unknown-linux-gnu-v0.17.6.tgz"]
    query := none
    fragment := none }

/-- The artifact reference extracted from `cargoAuditUrl` (tag
percent-decoded). -/
def cargoAuditArt : GhReleaseArtifact :=
  { release := { owner := strBytes "rustsec", repo := strBytes "rustsec"
                 tag := strBytes "cargo-audit/v0.17.6" }
    artifact_name := strBytes "cargo-audit-x86_64-unknown-linux-gnu-v0.17.6.tgz" }

/-- A matching URL whose scheme is `http`, not `https`. -/
def httpSchemeUrl : Url :=
  { scheme := strBytes "http"
    domain := some (strBytes "github.com")
    pathSegments := some [strBytes "cargo-bins", strBytes "cargo-binstall",
      strBytes "releases", strBytes "download", strBytes "v0.20.1",
      strBytes "x.tgz"]
    query := none
    fragment := none }

/-- `https://github.com//repo/releases/download/tag/artifact`: the owner
segment is the empty string. -/
def doubleSlashUrl : Url :=
  { scheme := strBytes "https"
    domain := some (strBytes "github.com")
    pathSegments := some [[], strBytes "repo", strBytes "releases",
      strBytes "download", strBytes "tag", strBytes "artifact"]
    query := none
    fragment := none }

/-- C7 (corrected): the code never examines the URL scheme.  This
concrete `http`-scheme URL extracts successfully, refuting the claim
that a non-`https` scheme yields no match. -/
theorem try_extract_accepts_http_scheme :
    try_extract_from_url httpSchemeUrl
        = some { release := { owner := strBytes "cargo-bins"
                              repo := strBytes "cargo-binstall"
                              tag := strBytes "v0.20.1" }
                 artifact_name := strBytes "x.tgz" }
      ∧ httpSchemeUrl.scheme ≠ strBytes "https" := by
  constructor
  · decide
  · decide

/-- C7 (amended): `try_extract_from_url` returns a reference if and only
if the parsed URL has host-domain `github.com`, exactly six path
segments with literal `releases` and `download` in positions three and
four, no fragment and no query — regardless of the scheme, which the
code never examines; the four captured segments are percent-decoded. -/
theorem try_extract_shape_characterization (u : Url) (r : GhReleaseArtifact) :
    try_extract_from_url u = some r ↔
      ∃ o rp t a,
        u.domain = some (strBytes "github.com")
        ∧ u.pathSegments
            = some [o, rp, strBytes "releases", strBytes "download", t, a]
        ∧ u.fragment = none ∧ u.query = none
        ∧ r = { release :=
                  { owner := percent_decode_http_url_path o
                    repo := percent_decode_http_url_path rp
                    tag := percent_decode_http_url_path t }
                artifact_name := percent_decode_http_url_path a } :=
  try_extract_eq_some_iff u r

/-- Witness for the C7 characterization at a concrete URL. -/
theorem try_extract_shape_characterization_witness :
    try_extract_from_url cargoAuditUrl = some cargoAuditArt :=
  (try_extract_shape_characterization cargoAuditUrl cargoAuditArt).2
    ⟨strBytes "rustsec", strBytes "rustsec", strBytes "cargo-audit%2Fv0.17.6",
      strBytes "cargo-audit-x86_64-unknown-linux-gnu-v0.17.6.tgz",
      rfl, rfl, rfl, rfl, by decide⟩

/-- C9: for every URL accepted by the extractor (with valid-UTF-8 raw
segments, as the `url` crate guarantees), percent-encoding the decoded
segments with `percent_encode_http_url_path`, substituting them back and
re-extracting yields the same decoded values. -/
theorem try_extract_segment_roundtrip (u : Url) (r : GhReleaseArtifact)
    (hex : try_extract_from_url u = some r)
    (hval : ∀ seg ∈ u.pathSegments.getD [], validUtf8 seg = true) :
    try_extract_from_url (substituteEncodedSegments u r) = some r := by
  obtain ⟨o, rp, t, a, hdom, hsegs, hf, hq, hr⟩ :=
    (try_extract_eq_some_iff u r).1 hex
  have hmem : ∀ seg ∈ [o, rp, strBytes "releases", strBytes "download", t, a],
      validUtf8 seg = true := by
    intro seg hsg
    apply hval
    rw [hsegs]
    exact hsg
  have hvo : validUtf8 o = true := hmem o (by simp)
  have hvrp : validUtf8 rp = true := hmem rp (by simp)
  have hvt : validUtf8 t = true := hmem t (by simp)
  have hva : validUtf8 a = true := hmem a (by simp)
  apply (try_extract_eq_some_iff _ r).2
  refine ⟨percent_encode_http_url_path r.release.owner,
    percent_encode_http_url_path r.release.repo,
    percent_encode_http_url_path r.release.tag,
    percent_encode_http_url_path r.artifact_name,
    hdom, rfl, hf, hq, ?_⟩
  have h1 : percent_decode_http_url_path
      (percent_encode_http_url_path r.release.owner) = r.release.owner := by
    rw [hr]
    exact decode_encode_of_valid _ (decode_valid o hvo)
  have h2 : percent_decode_http_url_path
      (percent_encode_http_url_path r.release.repo) = r.release.repo := by
    rw [hr]
    exact decode_encode_of_valid _ (decode_valid rp hvrp)
  have h3 : percent_decode_http_url_path
      (percent_encode_http_url_path r.release.tag) = r.release.tag := by
    rw [hr]
    exact decode_encode_of_valid _ (decode_valid t hvt)
  have h4 : percent_decode_http_url_path
      (percent_encode_http_url_path r.artifact_name) = r.artifact_name := by
    rw [hr]
    exact decode_encode_of_valid _ (decode_valid a hva)
  rw [h1, h2, h3, h4]

/-- Witness for C9: the `cargo-audit%2Fv0.17.6` URL round-trips, the tag
decoding to `cargo-audit/v0.17.6`. -/
theorem try_extract_segment_roundtrip_witness :
    try_extract_from_url (substituteEncodedSegments cargoAuditUrl cargoAuditArt)
        = some cargoAuditArt
      ∧ cargoAuditArt.release.tag = strBytes "cargo-audit/v0.17.6" :=
  ⟨try_extract_segment_roundtrip cargoAuditUrl cargoAuditArt (by decide)
      (by decide),
    rfl⟩

/-- C10: the extractor does not require the captured segments to be
non-empty: `https://github.com//repo/releases/download/tag/artifact`
(empty owner segment) extracts successfully with owner `""`. -/
theorem try_extract_empty_owner_segment :
    try_extract_from_url doubleSlashUrl
      = some { release := { owner := [], repo := strBytes "repo"
                            tag := strBytes "tag" }
               artifact_name := strBytes "artifact" } := by
  decide

/-! ## Response classification (`common.rs`, `check_for_status` and
`issue_graphql_query`) -/

/-- Modelled from the spec: `GhGraphQLErrors` (defined in the
`error.rs` module, which is not among the sources) is a structured
GraphQL error payload; the only property this core reads is whether it
indicates rate limiting (`is_rate_limited`). -/
structure GhGraphQLErrors where
  rate_limited : Bool
  deriving DecidableEq, Repr

/-- Modelled from the spec: `GhApiError` (defined in the missing
`error.rs`) — the error variants reachable in this core: a transport
(`remote`) error, carried opaquely, and a structured GraphQL error
payload. -/
inductive GhApiError where
  | remote (code : Nat)
  | graphQL (errors : GhGraphQLErrors)
  deriving DecidableEq, Repr

/-- `GhApiRet` from `common.rs`. -/
inductive GhApiRet (T : Type) where
  | reachedRateLimit (retry_after : Option Nat)
  | notFound
  | success (t : T)
  | unauthorized
  deriving DecidableEq, Repr

/-- The two response headers `check_for_status` reads.  A header value is
its byte string. -/
structure HeaderMap where
  x_ratelimit_remaining : Option Bytes
  x_ratelimit_reset : Option Bytes
  deriving DecidableEq, Repr

/-- `HeaderValue::to_str`: succeeds iff every byte is visible ASCII
(or tab). -/
def headerValueToStr (v : Bytes) : Option Bytes :=
  if v.all (fun b => (32 ≤ b && b < 127) || b == 9) then some v else none

/-- `str::parse::<u64>`: optional leading `+`, one or more ASCII digits,
value below `2^64`. -/
def parseU64 (s : Bytes) : Option Nat :=
  let digits := match s with
    | 43 :: rest => rest
    | _ => s
  if digits = [] then none
  else if digits.all (fun b => 48 ≤ b && b ≤ 57) then
    let v := digits.foldl (fun acc b => acc * 10 + (b - 48)) 0
    if v < 2 ^ 64 then some v else none
  else none

/-- The seconds parsed from the `x-ratelimit-reset` header:
`headers.get(..).and_then(|v| v.to_str().ok()?.parse().ok()?)`. -/
def parseResetHeader (reset : Option Bytes) : Option Nat :=
  reset.bind fun v => (headerValueToStr v).bind parseU64

/-- `check_for_status` from `common.rs`: 403 with `x-ratelimit-remaining`
equal to `"0"` is a rate limit (retry-after parsed from
`x-ratelimit-reset`, in seconds); 401 is `Unauthorized`; 404 is
`NotFound`; anything else is not classified here. -/
def check_for_status (T : Type) (status : Nat) (headers : HeaderMap) :
    Option (GhApiRet T) :=
  if status = 403 ∧ headers.x_ratelimit_remaining = some (strBytes "0") then
    some (.reachedRateLimit (parseResetHeader headers.x_ratelimit_reset))
  else if status = 401 then some .unauthorized
  else if status = 404 then some .notFound
  else none

/-- The parsed body of a GraphQL response: either a `data` object or a
structured `errors` payload. -/
inductive GraphQLResponse (T : Type) where
  | data_ (d : T)
  | errors (e : GhGraphQLErrors)
  deriving DecidableEq, Repr

/-- `GraphQLResult` from `common.rs`. -/
inductive GraphQLResult (T U : Type) where
  | data_ (d : T)
  | otherRet (r : GhApiRet U)
  deriving DecidableEq, Repr

/-- The classification tail of `issue_graphql_query` (`common.rs` lines
117-133), applied once the transport has delivered a response with the
given status, headers, and (when the status is not classified) parsed
body: a classified status short-circuits; a `data` body is returned; an
`errors` body indicating rate limiting becomes `ReachedRateLimit` with no
explicit duration; any other `errors` body is surfaced as an error. -/
def issue_graphql_query_classify (T U : Type) (status : Nat)
    (headers : HeaderMap) (body : GraphQLResponse T) :
    Except GhApiError (GraphQLResult T U) :=
  match check_for_status U status headers with
  | some ret => .ok (.otherRet ret)
  | none =>
    match body with
    | .data_ d => .ok (.data_ d)
    | .errors errors =>
      if errors.rate_limited then .ok (.otherRet (.reachedRateLimit none))
      else .error (.graphQL errors)

/-- C6: the fixed classification rule: 401 ↦ `Unauthorized`;
404 ↦ `NotFound`; 403 ↦ `RateLimited` iff `x-ratelimit-remaining` is
`"0"`, with the retry-after parsed (as seconds) from `x-ratelimit-reset`
and absent when that header is missing or unparsable; an in-band GraphQL
error payload indicating rate limiting ↦ `RateLimited` with no duration;
any other GraphQL error payload is surfaced as an error. -/
theorem response_classification_rule (T U : Type) :
    (∀ h : HeaderMap, check_for_status T 401 h = some .unauthorized)
    ∧ (∀ h : HeaderMap, check_for_status T 404 h = some .notFound)
    ∧ (∀ h : HeaderMap,
        check_for_status T 403 h
          = if h.x_ratelimit_remaining = some (strBytes "0")
            then some (.reachedRateLimit (parseResetHeader h.x_ratelimit_reset))
            else none)
    ∧ (∀ reset, parseResetHeader (some reset)
          = (headerValueToStr reset).bind parseU64)
    ∧ parseResetHeader (Option.none : Option Bytes) = none
    ∧ (∀ (status : Nat) (h : HeaderMap) (e : GhGraphQLErrors),
        check_for_status U status h = none →
        (e.rate_limited = true →
          issue_graphql_query_classify T U status h (.errors e)
            = .ok (.otherRet (.reachedRateLimit none)))
        ∧ (e.rate_limited = false →
          issue_graphql_query_classify T U status h (.errors e)
            = .error (.graphQL e))) := by
  refine ⟨?_, ?_, ?_, ?_, rfl, ?_⟩
  · intro h
    rw [check_for_status, if_neg (by simp), if_pos rfl]
  · intro h
    rw [check_for_status, if_neg (by simp), if_neg (by simp), if_pos rfl]
  · intro h
    by_cases hr : h.x_ratelimit_remaining = some (strBytes "0")
    · rw [check_for_status, if_pos ⟨rfl, hr⟩, if_pos hr]
    · rw [check_for_status, if_neg (by simp [hr]), if_neg (by simp),
        if_neg (by simp), if_neg hr]
  · intro reset
    rfl
  · intro status h e hnone
    constructor
    · intro hrl
      rw [issue_graphql_query_classify, hnone]
      simp [hrl]
    · intro hrl
      rw [issue_graphql_query_classify, hnone]
      simp [hrl]

/-- A concrete header map: rate limited, reset at 1700000000 seconds. -/
def rlHeaders : HeaderMap :=
  { x_ratelimit_remaining := some (strBytes "0")
    x_ratelimit_reset := some (strBytes "1700000000") }

/-- Witness for C6 at concrete inputs. -/
theorem response_classification_rule_witness :
    check_for_status Unit 401 rlHeaders = some .unauthorized
    ∧ check_for_status Unit 403 rlHeaders
        = some (.reachedRateLimit (some 1700000000))
    ∧ issue_graphql_query_classify Unit Unit 200 rlHeaders
        (.errors { rate_limited := true })
        = .ok (.otherRet (.reachedRateLimit none)) := by
  refine ⟨(response_classification_rule Unit Unit).1 rlHeaders, ?_, ?_⟩
  · rw [(response_classification_rule Unit Unit).2.2.1 rlHeaders]
    decide
  · exact ((response_classification_rule Unit Unit).2.2.2.2.2 200 rlHeaders
      { rate_limited := true } (by decide)).1 rfl

/-! ## The client state machine (`gh_api_client.rs`)

`GhApiClient::has_release_artifact` is modelled as an explicit
state-passing function.  The network — the call to
`release_artifacts::fetch_release_artifacts`, whose implementation is in
the `release_artifacts.rs` module — is abstracted as an oracle giving,
for a release and an optional auth token, the classified response
`Result<GhApiRet<Artifacts>, GhApiError>` observed by
`do_fetch_release_artifacts`.  Time (`Instant::now()`) is an explicit
`now : Nat` parameter (in seconds); `Instant` values never overflow in
the model, so `checked_add` always succeeds. -/

/-- Modelled from the spec: `release_artifacts::Artifacts` (defined in
the missing `release_artifacts.rs`) is an immutable mapping from
artifact file name to its download URL, for one release. -/
abbrev Artifacts : Type := List (Bytes × Bytes)

/-- Modelled from the spec: `Artifacts::get_artifact_url` — query the
artifact index by exact name match, returning the download URL. -/
def get_artifact_url (arts : Artifacts) (artifact_name : Bytes) :
    Option Bytes :=
  (arts.find? fun p => decide (p.1 = artifact_name)).map Prod.snd

/-- `DEFAULT_RETRY_DURATION`: 10 minutes, in seconds. -/
def DEFAULT_RETRY_DURATION : Nat := 10 * 60

/-- The network oracle: what
`release_artifacts::fetch_release_artifacts(client, release, auth_token)`
returns. -/
def FetchOracle : Type :=
  GhRelease → Option Bytes → Except GhApiError (GhApiRet Artifacts)

/-- `FetchReleaseArtifactError` (`gh_api_client.rs` lines 133-137). -/
inductive FetchReleaseArtifactError where
  | error (e : GhApiError)
  | rateLimit (retry_after : Nat)
  | unauthorized
  deriving DecidableEq, Repr

/-- `GhApiClient::do_fetch_release_artifacts` (lines 140-165): translate
the classified response; a rate limit becomes a deadline `now` plus the
supplied duration, defaulting to `DEFAULT_RETRY_DURATION`. -/
def do_fetch_release_artifacts (net : FetchOracle) (now : Nat)
    (release : GhRelease) (auth_token : Option Bytes) :
    Except FetchReleaseArtifactError (Option Artifacts) :=
  match net release auth_token with
  | .ok .notFound => .ok none
  | .ok (.success artifacts) => .ok (some artifacts)
  | .ok (.reachedRateLimit retry_after) =>
    .error (.rateLimit (now + retry_after.getD DEFAULT_RETRY_DURATION))
  | .ok .unauthorized => .error .unauthorized
  | .error err => .error (.error err)

/-- The shared fields of `Inner` mutated by the computation closure:
`retry_after` (the rate-limit gate), the configured `auth_token`
(immutable), and `is_auth_token_valid` (the auth gate). -/
structure SharedState where
  retry_after : Option Nat
  auth_token : Option Bytes
  is_auth_token_valid : Bool
  deriving DecidableEq, Repr

/-- The state of one `GhApiClient` (`Inner`): the per-release map of
initialized `OnceCell`s plus the shared gates. -/
structure ClientInner where
  release_artifacts : List (GhRelease × Option Artifacts)
  shared : SharedState
  deriving DecidableEq, Repr

/-- Look up the initialized cell for a release key
(`Map::get` + `OnceCell::initialized`). -/
def cacheLookup (cells : List (GhRelease × Option Artifacts))
    (release : GhRelease) : Option (Option Artifacts) :=
  (cells.find? fun p => decide (p.1 = release)).map Prod.snd

deriving instance DecidableEq for Except

/-- Result of one run of the `get_or_try_init` closure: the computation
result, the shared state after the run, and the trace of network
attempts made (the token used by each). -/
structure ComputeResult where
  res : Except FetchReleaseArtifactError (Option Artifacts)
  shared : SharedState
  attempts : List (Option Bytes)
  deriving DecidableEq, Repr

/-- The auth section of the closure (lines 194-206): when the token is
still considered valid, attempt with the token; on `Unauthorized`, flip
the flag and fall through to one unauthenticated attempt; otherwise (or
when the flag is already false) a single attempt. -/
def compute_body (net : FetchOracle) (now : Nat) (release : GhRelease)
    (sh : SharedState) : ComputeResult :=
  if sh.is_auth_token_valid then
    match do_fetch_release_artifacts net now release sh.auth_token with
    | .error .unauthorized =>
      { res := do_fetch_release_artifacts net now release none
        shared := { sh with is_auth_token_valid := false }
        attempts := [sh.auth_token, none] }
    | res =>
      { res := res, shared := sh, attempts := [sh.auth_token] }
  else
    { res := do_fetch_release_artifacts net now release none
      shared := sh
      attempts := [none] }

/-- The whole `get_or_try_init` closure (lines 180-207): first the gate
check — a stored deadline not yet elapsed (`now ≤ deadline`) fails the
computation with `RateLimit` and no network I/O; an elapsed deadline is
cleared before proceeding. -/
def compute_release_artifacts (net : FetchOracle) (now : Nat)
    (release : GhRelease) (sh : SharedState) : ComputeResult :=
  match sh.retry_after with
  | some retry_after =>
    if now ≤ retry_after then
      { res := .error (.rateLimit retry_after), shared := sh, attempts := [] }
    else compute_body net now release { sh with retry_after := none }
  | none => compute_body net now release sh

/-- `HasReleaseArtifact` (lines 228-256). -/
inductive HasReleaseArtifact where
  | yes (url : Bytes)
  | no
  | noSuchRelease
  | unauthorized
  | rateLimit (retry_after : Nat)
  deriving DecidableEq, Repr

/-- Translation of a permanent cell value (lines 212-216): name present
in the index ↦ `Yes url`; absent ↦ `No`; `None` ↦ `NoSuchRelease`. -/
def translateValue (v : Option Artifacts) (artifact_name : Bytes) :
    HasReleaseArtifact :=
  match v with
  | some artifacts =>
    match get_artifact_url artifacts artifact_name with
    | some url => .yes url
    | none => .no
  | none => .noSuchRelease

/-- Result of one `has_release_artifact` call: the returned value, the
client state afterwards, and the trace of network attempts made. -/
structure CallResult where
  result : Except GhApiError HasReleaseArtifact
  state : ClientInner
  attempts : List (Option Bytes)
  deriving DecidableEq, Repr

/-- `GhApiClient::has_release_artifact` (lines 168-225).  The per-release
`OnceCell` (`tokio::sync::OnceCell::get_or_try_init`) returns the stored
value without running the closure when already initialized; otherwise the
closure runs, and only an `Ok` outcome initializes the cell — on `Err`
the cell stays uninitialized and the error goes to the caller.  A
`RateLimit` error is then recorded in the shared gate (line 219). -/
def has_release_artifact (net : FetchOracle) (now : Nat)
    (ref : GhReleaseArtifact) (st : ClientInner) : CallResult :=
  match cacheLookup st.release_artifacts ref.release with
  | some v =>
    { result := .ok (translateValue v ref.artifact_name)
      state := st
      attempts := [] }
  | none =>
    let c := compute_release_artifacts net now ref.release st.shared
    match c.res with
    | .ok v =>
      { result := .ok (translateValue v ref.artifact_name)
        state := { release_artifacts := (ref.release, v) :: st.release_artifacts
                   shared := c.shared }
        attempts := c.attempts }
    | .error .unauthorized =>
      { result := .ok .unauthorized
        state := { st with shared := c.shared }
        attempts := c.attempts }
    | .error (.rateLimit retry_after) =>
      { result := .ok (.rateLimit retry_after)
        state := { release_artifacts := st.release_artifacts
                   shared := { c.shared with retry_after := some retry_after } }
        attempts := c.attempts }
    | .error (.error err) =>
      { result := .error err
        state := { st with shared := c.shared }
        attempts := c.attempts }

/-- The value the call's resolution settles on, when it is a permanent
one: the already-cached value, or the value a fresh successful
computation produces. -/
def resolveValue (net : FetchOracle) (now : Nat) (release : GhRelease)
    (st : ClientInner) : Option (Option Artifacts) :=
  match cacheLookup st.release_artifacts release with
  | some v => some v
  | none =>
    match (compute_release_artifacts net now release st.shared).res with
    | .ok v => some v
    | .error _ => none

theorem cacheLookup_cons (k : GhRelease) (w : Option Artifacts)
    (l : List (GhRelease × Option Artifacts)) (r : GhRelease) :
    cacheLookup ((k, w) :: l) r = if k = r then some w else cacheLookup l r := by
  by_cases hk : k = r
  · simp [cacheLookup, List.find?_cons, hk]
  · simp [cacheLookup, List.find?_cons, hk]

theorem translateValue_cases (v : Option Artifacts) (name : Bytes) :
    (∃ arts url, v = some arts ∧ get_artifact_url arts name = some url
      ∧ translateValue v name = .yes url)
    ∨ (∃ arts, v = some arts ∧ get_artifact_url arts name = none
      ∧ translateValue v name = .no)
    ∨ (v = none ∧ translateValue v name = .noSuchRelease) := by
  cases v with
  | none => exact Or.inr (Or.inr ⟨rfl, rfl⟩)
  | some arts =>
    cases hg : get_artifact_url arts name with
    | some url =>
      exact Or.inl ⟨arts, url, rfl, hg, by simp [translateValue, hg]⟩
    | none =>
      exact Or.inr (Or.inl ⟨arts, rfl, hg, by simp [translateValue, hg]⟩)

theorem has_release_artifact_result_of_resolve (net : FetchOracle)
    (now : Nat) (ref : GhReleaseArtifact) (st : ClientInner)
    (v : Option Artifacts)
    (h : resolveValue net now ref.release st = some v) :
    (has_release_artifact net now ref st).result
      = .ok (translateValue v ref.artifact_name) := by
  rw [resolveValue] at h
  cases hc : cacheLookup st.release_artifacts ref.release with
  | some w =>
    rw [hc] at h
    injection h with h
    subst h
    simp [has_release_artifact, hc]
  | none =>
    rw [hc] at h
    cases hr : (compute_release_artifacts net now ref.release st.shared).res with
    | ok w =>
      rw [hr] at h
      injection h with h
      subst h
      simp [has_release_artifact, hc, hr]
    | error e =>
      rw [hr] at h
      cases h

/-- C1: when the release resolution settles on a permanent value (the
cached cell, or a fresh successful computation), the call translates it:
artifact present in the index ↦ `Yes` with that artifact's URL; index
present but name absent ↦ `No` (not an error); cached `None` (release
does not exist) ↦ `NoSuchRelease` (not an error). -/
theorem has_release_artifact_translates_permanent (net : FetchOracle)
    (now : Nat) (ref : GhReleaseArtifact) (st : ClientInner)
    (v : Option Artifacts)
    (h : resolveValue net now ref.release st = some v) :
    (∃ arts url, v = some arts
      ∧ get_artifact_url arts ref.artifact_name = some url
      ∧ (has_release_artifact net now ref st).result = .ok (.yes url))
    ∨ (∃ arts, v = some arts
      ∧ get_artifact_url arts ref.artifact_name = none
      ∧ (has_release_artifact net now ref st).result = .ok .no)
    ∨ (v = none
      ∧ (has_release_artifact net now ref st).result = .ok .noSuchRelease) := by
  have hres := has_release_artifact_result_of_resolve net now ref st v h
  rcases translateValue_cases v ref.artifact_name with
    ⟨arts, url, hv, hg, ht⟩ | ⟨arts, hv, hg, ht⟩ | ⟨hv, ht⟩
  · exact Or.inl ⟨arts, url, hv, hg, by rw [hres, ht]⟩
  · exact Or.inr (Or.inl ⟨arts, hv, hg, by rw [hres, ht]⟩)
  · exact Or.inr (Or.inr ⟨hv, by rw [hres, ht]⟩)

/-- A client with release `cargo-bins/cargo-binstall v0.20.1` already
cached, holding one artifact. -/
def cRel : GhRelease :=
  { owner := strBytes "cargo-bins", repo := strBytes "cargo-binstall"
    tag := strBytes "v0.20.1" }

def cIdx : Artifacts :=
  [(strBytes "cargo-binstall-x86_64-unknown-linux-gnu.tgz",
    strBytes "https://example/dl.tgz")]

def freshShared : SharedState :=
  { retry_after := none, auth_token := none, is_auth_token_valid := true }

def cachedClient : ClientInner :=
  { release_artifacts := [(cRel, some cIdx)], shared := freshShared }

/-- A network oracle that always fails with a transport error. -/
def failNet : FetchOracle := fun _ _ => .error (.remote 7)

/-- Witness for C1: with the cell cached, the call returns `Yes` for the
present artifact name. -/
theorem has_release_artifact_translates_permanent_witness :
    (∃ arts url, (some cIdx : Option Artifacts) = some arts
      ∧ get_artifact_url arts (strBytes "cargo-binstall-x86_64-unknown-linux-gnu.tgz") = some url
      ∧ (has_release_artifact failNet 0
          ⟨cRel, strBytes "cargo-binstall-x86_64-unknown-linux-gnu.tgz"⟩
          cachedClient).result = .ok (.yes url))
    ∨ (∃ arts, (some cIdx : Option Artifacts) = some arts
      ∧ get_artifact_url arts (strBytes "cargo-binstall-x86_64-unknown-linux-gnu.tgz") = none
      ∧ (has_release_artifact failNet 0
          ⟨cRel, strBytes "cargo-binstall-x86_64-unknown-linux-gnu.tgz"⟩
          cachedClient).result = .ok .no)
    ∨ ((some cIdx : Option Artifacts) = none
      ∧ (has_release_artifact failNet 0
          ⟨cRel, strBytes "cargo-binstall-x86_64-unknown-linux-gnu.tgz"⟩
          cachedClient).result = .ok .noSuchRelease) :=
  has_release_artifact_translates_permanent failNet 0
    ⟨cRel, strBytes "cargo-binstall-x86_64-unknown-linux-gnu.tgz"⟩
    cachedClient (some cIdx) (by decide)

/-- C3: the per-release cell is only ever initialized with a permanent
`Ok` value (`Some index` on success, `None` on not-found); once present
an entry is never removed or changed by any later call, and a call for a
cached release reuses the entry with no network attempt; failed
computations (rate limit, unauthorized, transport error) never
initialize the cell. -/
theorem cache_cell_write_once_durable (net : FetchOracle) (now : Nat)
    (ref : GhReleaseArtifact) (st : ClientInner) :
    (∀ r v, cacheLookup st.release_artifacts r = some v →
      cacheLookup (has_release_artifact net now ref st).state.release_artifacts r
        = some v)
    ∧ (∀ v, cacheLookup st.release_artifacts ref.release = some v →
      (has_release_artifact net now ref st).attempts = []
        ∧ (has_release_artifact net now ref st).result
            = .ok (translateValue v ref.artifact_name)
        ∧ (has_release_artifact net now ref st).state = st)
    ∧ (∀ e, cacheLookup st.release_artifacts ref.release = none →
      (compute_release_artifacts net now ref.release st.shared).res = .error e →
      cacheLookup (has_release_artifact net now ref st).state.release_artifacts
        ref.release = none)
    ∧ (∀ v, cacheLookup st.release_artifacts ref.release = none →
      (compute_release_artifacts net now ref.release st.shared).res = .ok v →
      cacheLookup (has_release_artifact net now ref st).state.release_artifacts
        ref.release = some v) := by
  refine ⟨?_, ?_, ?_, ?_⟩
  · intro r v hv
    cases hc : cacheLookup st.release_artifacts ref.release with
    | some w => simp [has_release_artifact, hc, hv]
    | none =>
      have hne : ref.release ≠ r := by
        intro he
        rw [he] at hc
        rw [hc] at hv
        cases hv
      cases hr : (compute_release_artifacts net now ref.release st.shared).res with
      | ok w => simp [has_release_artifact, hc, hr, cacheLookup_cons, hne, hv]
      | error e =>
        cases e with
        | error e2 => simp [has_release_artifact, hc, hr, hv]
        | rateLimit d => simp [has_release_artifact, hc, hr, hv]
        | unauthorized => simp [has_release_artifact, hc, hr, hv]
  · intro v hv
    refine ⟨?_, ?_, ?_⟩ <;> simp [has_release_artifact, hv]
  · intro e hc hr
    cases e with
    | error e2 => simp [has_release_artifact, hc, hr]
    | rateLimit d => simp [has_release_artifact, hc, hr]
    | unauthorized => simp [has_release_artifact, hc, hr]
  · intro v hc hr
    simp [has_release_artifact, hc, hr, cacheLookup_cons]

/-- Witness for C3 at concrete inputs: a cached entry survives a
rate-limited call for a different release and is reused without network
I/O. -/
theorem cache_cell_write_once_durable_witness :
    (cacheLookup
        ((has_release_artifact failNet 0 ⟨cRel, strBytes "x"⟩ cachedClient).state.release_artifacts)
        cRel = some (some cIdx))
    ∧ (has_release_artifact failNet 0 ⟨cRel, strBytes "x"⟩ cachedClient).attempts
        = []
    ∧ (cacheLookup
        ((has_release_artifact failNet 0
          ⟨{ cRel with tag := strBytes "v0.0.0" }, strBytes "x"⟩ cachedClient).state.release_artifacts)
        { cRel with tag := strBytes "v0.0.0" } = none) := by
  refine ⟨?_, ?_, ?_⟩
  · exact (cache_cell_write_once_durable failNet 0 ⟨cRel, strBytes "x"⟩
      cachedClient).1 cRel (some cIdx) (by decide)
  · exact ((cache_cell_write_once_durable failNet 0 ⟨cRel, strBytes "x"⟩
      cachedClient).2.1 (some cIdx) (by decide)).1
  · exact (cache_cell_write_once_durable failNet 0
      ⟨{ cRel with tag := strBytes "v0.0.0" }, strBytes "x"⟩ cachedClient).2.2.1
      (.error (.remote 7)) (by decide) (by decide)

/-! Helper lemmas about the closure and the call in the cache-miss case. -/

theorem translateValue_ne_rateLimit (v : Option Artifacts) (name : Bytes)
    (d : Nat) : translateValue v name ≠ .rateLimit d := by
  cases v with
  | none => simp [translateValue]
  | some arts =>
    cases hg : get_artifact_url arts name <;> simp [translateValue, hg]

theorem translateValue_ne_unauthorized (v : Option Artifacts) (name : Bytes) :
    translateValue v name ≠ .unauthorized := by
  cases v with
  | none => simp [translateValue]
  | some arts =>
    cases hg : get_artifact_url arts name <;> simp [translateValue, hg]

theorem compute_body_attempts_ne (net : FetchOracle) (now : Nat)
    (release : GhRelease) (sh : SharedState) :
    (compute_body net now release sh).attempts ≠ [] := by
  rw [compute_body]
  split
  · split <;> simp
  · simp

theorem compute_body_retry_after (net : FetchOracle) (now : Nat)
    (release : GhRelease) (sh : SharedState) :
    (compute_body net now release sh).shared.retry_after = sh.retry_after := by
  rw [compute_body]
  split
  · split <;> rfl
  · rfl

theorem compute_body_valid_of_invalid (net : FetchOracle) (now : Nat)
    (release : GhRelease) (sh : SharedState)
    (hv : sh.is_auth_token_valid = false) :
    (compute_body net now release sh).shared.is_auth_token_valid = false := by
  rw [compute_body, if_neg (by simp [hv])]
  exact hv

theorem compute_body_attempts_of_invalid (net : FetchOracle) (now : Nat)
    (release : GhRelease) (sh : SharedState)
    (hv : sh.is_auth_token_valid = false) :
    (compute_body net now release sh).attempts = [none] := by
  rw [compute_body, if_neg (by simp [hv])]

theorem has_miss_attempts (net : FetchOracle) (now : Nat)
    (ref : GhReleaseArtifact) (st : ClientInner)
    (hmiss : cacheLookup st.release_artifacts ref.release = none) :
    (has_release_artifact net now ref st).attempts
      = (compute_release_artifacts net now ref.release st.shared).attempts := by
  cases hr : (compute_release_artifacts net now ref.release st.shared).res with
  | ok v => simp [has_release_artifact, hmiss, hr]
  | error e => cases e <;> simp [has_release_artifact, hmiss, hr]

theorem has_miss_valid (net : FetchOracle) (now : Nat)
    (ref : GhReleaseArtifact) (st : ClientInner)
    (hmiss : cacheLookup st.release_artifacts ref.release = none) :
    (has_release_artifact net now ref st).state.shared.is_auth_token_valid
      = (compute_release_artifacts net now ref.release st.shared).shared.is_auth_token_valid := by
  cases hr : (compute_release_artifacts net now ref.release st.shared).res with
  | ok v => simp [has_release_artifact, hmiss, hr]
  | error e => cases e <;> simp [has_release_artifact, hmiss, hr]

theorem compute_valid_of_invalid (net : FetchOracle) (now : Nat)
    (release : GhRelease) (sh : SharedState)
    (hv : sh.is_auth_token_valid = false) :
    (compute_release_artifacts net now release sh).shared.is_auth_token_valid
      = false := by
  rcases hg : sh.retry_after with _ | d
  · rw [compute_release_artifacts]
    simp only [hg]
    exact compute_body_valid_of_invalid net now release _ hv
  · rw [compute_release_artifacts]
    simp only [hg]
    by_cases hle : now ≤ d
    · rw [if_pos hle]
      exact hv
    · rw [if_neg hle]
      exact compute_body_valid_of_invalid net now release _ hv

theorem compute_attempts_none_of_invalid (net : FetchOracle) (now : Nat)
    (release : GhRelease) (sh : SharedState)
    (hv : sh.is_auth_token_valid = false) :
    ∀ t ∈ (compute_release_artifacts net now release sh).attempts, t = none := by
  rcases hg : sh.retry_after with _ | d
  · rw [compute_release_artifacts]
    simp only [hg]
    rw [compute_body_attempts_of_invalid net now release _ hv]
    simp
  · rw [compute_release_artifacts]
    simp only [hg]
    by_cases hle : now ≤ d
    · rw [if_pos hle]
      simp
    · rw [if_neg hle]
      rw [compute_body_attempts_of_invalid net now release _ (by exact hv)]
      simp

theorem compute_res_unauthorized_from_anon (net : FetchOracle) (now : Nat)
    (release : GhRelease) (sh : SharedState)
    (hr : (compute_release_artifacts net now release sh).res
      = .error .unauthorized) :
    net release none = .ok (.unauthorized) := by
  have hbody : ∀ sh2 : SharedState,
      (compute_body net now release sh2).res = .error .unauthorized →
      net release none = .ok .unauthorized := by
    intro sh2 hb
    have hfetch : do_fetch_release_artifacts net now release none
        = .error .unauthorized := by
      rw [compute_body] at hb
      by_cases hval : sh2.is_auth_token_valid = true
      · rw [if_pos hval] at hb
        cases hf : do_fetch_release_artifacts net now release sh2.auth_token with
        | ok v =>
          simp only [hf] at hb
          exact absurd hb (by simp)
        | error e1 =>
          cases e1 with
          | unauthorized =>
            simp only [hf] at hb
            exact hb
          | rateLimit d =>
            simp only [hf] at hb
            exact absurd hb (by simp)
          | error e2 =>
            simp only [hf] at hb
            exact absurd hb (by simp)
      · rw [if_neg hval] at hb
        exact hb
    rw [do_fetch_release_artifacts] at hfetch
    cases hn : net release none with
    | ok ret =>
      cases ret with
      | reachedRateLimit d =>
        simp only [hn] at hfetch
        exact absurd hfetch (by simp)
      | notFound =>
        simp only [hn] at hfetch
        exact absurd hfetch (by simp)
      | success idx =>
        simp only [hn] at hfetch
        exact absurd hfetch (by simp)
      | unauthorized => rfl
    | error err =>
      simp only [hn] at hfetch
      exact absurd hfetch (by simp)
  rw [compute_release_artifacts] at hr
  rcases hg : sh.retry_after with _ | d
  · simp only [hg] at hr
    exact hbody _ hr
  · simp only [hg] at hr
    by_cases hle : now ≤ d
    · rw [if_pos hle] at hr
      exact absurd hr (by simp)
    · rw [if_neg hle] at hr
      exact hbody _ hr

theorem compute_error_retry_none (net : FetchOracle) (now : Nat)
    (release : GhRelease) (sh : SharedState) (e : GhApiError)
    (hr : (compute_release_artifacts net now release sh).res
      = .error (.error e)) :
    (compute_release_artifacts net now release sh).shared.retry_after
      = none := by
  rcases hg : sh.retry_after with _ | d
  · rw [compute_release_artifacts]
    simp only [hg]
    rw [compute_body_retry_after]
    exact hg
  · rw [compute_release_artifacts] at hr ⊢
    simp only [hg] at hr ⊢
    by_cases hle : now ≤ d
    · rw [if_pos hle] at hr
      exact absurd hr (by simp)
    · rw [if_neg hle] at hr ⊢
      rw [compute_body_retry_after]

/-- C4: rate-limit handling.  (a) A fetch classified `RateLimited`
returns `RateLimit` with deadline `now` plus the supplied duration
(default 10 minutes = 600 s) and records that deadline in the shared
gate.  (b) Any computation whose gate check runs while a stored deadline
has not yet elapsed returns `RateLimit` with the stored deadline and
performs no network attempt, for any release.  (c) A computation whose
gate check runs after the deadline clears the gate and performs a fresh
network attempt.  (d) A rate-limited outcome is never memoized in the
per-release cache. -/
theorem rate_limit_gate_behavior (net : FetchOracle) (now : Nat)
    (ref : GhReleaseArtifact) (st : ClientInner) :
    (∀ r, st.shared.retry_after = none →
      st.shared.is_auth_token_valid = true →
      cacheLookup st.release_artifacts ref.release = none →
      net ref.release st.shared.auth_token = .ok (.reachedRateLimit r) →
      (has_release_artifact net now ref st).result
          = .ok (.rateLimit (now + r.getD DEFAULT_RETRY_DURATION))
        ∧ (has_release_artifact net now ref st).state.shared.retry_after
          = some (now + r.getD DEFAULT_RETRY_DURATION))
    ∧ (∀ d, st.shared.retry_after = some d → now ≤ d →
      cacheLookup st.release_artifacts ref.release = none →
      (has_release_artifact net now ref st).result = .ok (.rateLimit d)
        ∧ (has_release_artifact net now ref st).attempts = []
        ∧ (has_release_artifact net now ref st).state.shared.retry_after
            = some d)
    ∧ (∀ d, st.shared.retry_after = some d → d < now →
      cacheLookup st.release_artifacts ref.release = none →
      (has_release_artifact net now ref st).attempts ≠ []
        ∧ ((has_release_artifact net now ref st).state.shared.retry_after
              = none
            ∨ ∃ d2, (has_release_artifact net now ref st).result
              = .ok (.rateLimit d2)))
    ∧ (∀ d2, (has_release_artifact net now ref st).result
        = .ok (.rateLimit d2) →
      (has_release_artifact net now ref st).state.release_artifacts
        = st.release_artifacts) := by
  refine ⟨?_, ?_, ?_, ?_⟩
  · intro r hgate hvalid hmiss hnet
    have hc : compute_release_artifacts net now ref.release st.shared
        = { res := .error (.rateLimit (now + r.getD DEFAULT_RETRY_DURATION))
            shared := st.shared
            attempts := [st.shared.auth_token] } := by
      rw [compute_release_artifacts]
      simp only [hgate]
      rw [compute_body, if_pos hvalid, do_fetch_release_artifacts, hnet]
    constructor <;> simp [has_release_artifact, hmiss, hc]
  · intro d hgate hle hmiss
    have hc : compute_release_artifacts net now ref.release st.shared
        = { res := .error (.rateLimit d), shared := st.shared
            attempts := [] } := by
      rw [compute_release_artifacts]
      simp only [hgate]
      rw [if_pos hle]
    refine ⟨?_, ?_, ?_⟩ <;> simp [has_release_artifact, hmiss, hc]
  · intro d hgate hlt hmiss
    have hc : compute_release_artifacts net now ref.release st.shared
        = compute_body net now ref.release
            { st.shared with retry_after := none } := by
      rw [compute_release_artifacts]
      simp only [hgate]
      rw [if_neg (by omega)]
    constructor
    · rw [has_miss_attempts net now ref st hmiss, hc]
      exact compute_body_attempts_ne net now ref.release _
    · cases hr : (compute_release_artifacts net now ref.release st.shared).res
        with
      | ok v =>
        left
        simp only [has_release_artifact, hmiss, hr]
        rw [hc, compute_body_retry_after]
      | error e =>
        cases e with
        | error e2 =>
          left
          simp only [has_release_artifact, hmiss, hr]
          rw [hc, compute_body_retry_after]
        | unauthorized =>
          left
          simp only [has_release_artifact, hmiss, hr]
          rw [hc, compute_body_retry_after]
        | rateLimit d2 =>
          right
          exact ⟨d2, by simp [has_release_artifact, hmiss, hr]⟩
  · intro d2 hres
    cases hl : cacheLookup st.release_artifacts ref.release with
    | some w =>
      exfalso
      have : (has_release_artifact net now ref st).result
          = .ok (translateValue w ref.artifact_name) := by
        simp [has_release_artifact, hl]
      rw [this] at hres
      injection hres with hres
      exact translateValue_ne_rateLimit w ref.artifact_name d2 hres
    | none =>
      cases hr : (compute_release_artifacts net now ref.release st.shared).res
        with
      | ok v =>
        exfalso
        have : (has_release_artifact net now ref st).result
            = .ok (translateValue v ref.artifact_name) := by
          simp [has_release_artifact, hl, hr]
        rw [this] at hres
        injection hres with hres
        exact translateValue_ne_rateLimit v ref.artifact_name d2 hres
      | error e =>
        cases e with
        | error e2 => simp [has_release_artifact, hl, hr]
        | unauthorized => simp [has_release_artifact, hl, hr]
        | rateLimit d3 => simp [has_release_artifact, hl, hr]

/-- A network oracle that is always rate limited, retry after 300 s. -/
def rlNet : FetchOracle := fun _ _ => .ok (.reachedRateLimit (some 300))

def freshClient : ClientInner :=
  { release_artifacts := [], shared := freshShared }

/-- A client whose gate currently holds deadline 500. -/
def gatedClient : ClientInner :=
  { release_artifacts := []
    shared := { freshShared with retry_after := some 500 } }

/-- Witness for C4: a fresh rate-limited fetch at `now = 0` records
deadline 300; at `now = 100` a different release is blocked by a stored
deadline 500 with no attempt; at `now = 501` the gate clears. -/
theorem rate_limit_gate_behavior_witness :
    ((has_release_artifact rlNet 0 ⟨cRel, strBytes "a"⟩ freshClient).result
        = .ok (.rateLimit (0 + (some 300 : Option Nat).getD
            DEFAULT_RETRY_DURATION))
      ∧ (has_release_artifact rlNet 0 ⟨cRel, strBytes "a"⟩ freshClient).state.shared.retry_after
        = some (0 + (some 300 : Option Nat).getD DEFAULT_RETRY_DURATION))
    ∧ ((has_release_artifact rlNet 100 ⟨cRel, strBytes "a"⟩ gatedClient).result
        = .ok (.rateLimit 500)
      ∧ (has_release_artifact rlNet 100 ⟨cRel, strBytes "a"⟩ gatedClient).attempts = []
      ∧ (has_release_artifact rlNet 100 ⟨cRel, strBytes "a"⟩ gatedClient).state.shared.retry_after = some 500)
    ∧ ((has_release_artifact failNet 501 ⟨cRel, strBytes "a"⟩ gatedClient).attempts ≠ []
      ∧ ((has_release_artifact failNet 501 ⟨cRel, strBytes "a"⟩ gatedClient).state.shared.retry_after = none
          ∨ ∃ d2, (has_release_artifact failNet 501 ⟨cRel, strBytes "a"⟩
              gatedClient).result = .ok (.rateLimit d2))) := by
  refine ⟨?_, ?_, ?_⟩
  · exact ⟨((rate_limit_gate_behavior rlNet 0 ⟨cRel, strBytes "a"⟩
        freshClient).1 (some 300) rfl rfl (by decide) rfl).1,
      ((rate_limit_gate_behavior rlNet 0 ⟨cRel, strBytes "a"⟩
        freshClient).1 (some 300) rfl rfl (by decide) rfl).2⟩
  · exact (rate_limit_gate_behavior rlNet 100 ⟨cRel, strBytes "a"⟩
      gatedClient).2.1 500 rfl (by omega) (by decide)
  · exact (rate_limit_gate_behavior failNet 501 ⟨cRel, strBytes "a"⟩
      gatedClient).2.2.1 500 rfl (by omega) (by decide)

/-- C5: the authentication downgrade protocol.  (a) With a valid token,
an `Unauthorized` classification of the credentialed attempt flips the
flag and makes exactly one additional unauthenticated attempt within the
same call.  (b) Once the flag is false, every attempt of every call is
unauthenticated.  (c) The flag is one-way: it is never reset to true.
(d) `Unauthorized` is surfaced to the caller only when the
unauthenticated attempt itself was rejected. -/
theorem auth_downgrade_behavior (net : FetchOracle) (now : Nat)
    (ref : GhReleaseArtifact) (st : ClientInner) :
    (∀ tok, st.shared.retry_after = none →
      st.shared.is_auth_token_valid = true →
      st.shared.auth_token = some tok →
      cacheLookup st.release_artifacts ref.release = none →
      net ref.release (some tok) = .ok .unauthorized →
      (has_release_artifact net now ref st).attempts = [some tok, none]
        ∧ (has_release_artifact net now ref st).state.shared.is_auth_token_valid = false)
    ∧ (st.shared.is_auth_token_valid = false →
      ∀ t ∈ (has_release_artifact net now ref st).attempts, t = none)
    ∧ ((has_release_artifact net now ref st).state.shared.is_auth_token_valid
          = true →
      st.shared.is_auth_token_valid = true)
    ∧ ((has_release_artifact net now ref st).result = .ok .unauthorized →
      net ref.release none = .ok .unauthorized) := by
  refine ⟨?_, ?_, ?_, ?_⟩
  · intro tok hgate hvalid htok hmiss hnet
    have hc : compute_release_artifacts net now ref.release st.shared
        = { res := do_fetch_release_artifacts net now ref.release none
            shared := { st.shared with is_auth_token_valid := false }
            attempts := [some tok, none] } := by
      rw [compute_release_artifacts]
      simp only [hgate]
      rw [compute_body, if_pos hvalid, htok]
      rw [show do_fetch_release_artifacts net now ref.release (some tok)
          = .error .unauthorized by
        rw [do_fetch_release_artifacts, hnet]]
      rw [hgate]
    constructor
    · rw [has_miss_attempts net now ref st hmiss, hc]
    · rw [has_miss_valid net now ref st hmiss, hc]
  · intro hinvalid t ht
    cases hl : cacheLookup st.release_artifacts ref.release with
    | some w =>
      have : (has_release_artifact net now ref st).attempts = [] := by
        simp [has_release_artifact, hl]
      rw [this] at ht
      cases ht
    | none =>
      rw [has_miss_attempts net now ref st hl] at ht
      exact compute_attempts_none_of_invalid net now ref.release st.shared
        hinvalid t ht
  · intro hpost
    by_cases hv : st.shared.is_auth_token_valid = true
    · exact hv
    · exfalso
      have hfalse : st.shared.is_auth_token_valid = false := by
        cases h : st.shared.is_auth_token_valid
        · rfl
        · exact absurd h hv
      cases hl : cacheLookup st.release_artifacts ref.release with
      | some w =>
        have : (has_release_artifact net now ref st).state = st := by
          simp [has_release_artifact, hl]
        rw [this] at hpost
        rw [hpost] at hfalse
        cases hfalse
      | none =>
        rw [has_miss_valid net now ref st hl,
          compute_valid_of_invalid net now ref.release st.shared hfalse]
          at hpost
        cases hpost
  · intro hres
    cases hl : cacheLookup st.release_artifacts ref.release with
    | some w =>
      exfalso
      have : (has_release_artifact net now ref st).result
          = .ok (translateValue w ref.artifact_name) := by
        simp [has_release_artifact, hl]
      rw [this] at hres
      injection hres with hres
      exact translateValue_ne_unauthorized w ref.artifact_name hres
    | none =>
      cases hr : (compute_release_artifacts net now ref.release st.shared).res
        with
      | ok v =>
        exfalso
        have : (has_release_artifact net now ref st).result
            = .ok (translateValue v ref.artifact_name) := by
          simp [has_release_artifact, hl, hr]
        rw [this] at hres
        injection hres with hres
        exact translateValue_ne_unauthorized v ref.artifact_name hres
      | error e =>
        cases e with
        | unauthorized =>
          exact compute_res_unauthorized_from_anon net now ref.release
            st.shared hr
        | rateLimit d =>
          exfalso
          have : (has_release_artifact net now ref st).result
              = .ok (.rateLimit d) := by
            simp [has_release_artifact, hl, hr]
          rw [this] at hres
          injection hres with hres
          cases hres
        | error e2 =>
          exfalso
          have : (has_release_artifact net now ref st).result = .error e2 := by
            simp [has_release_artifact, hl, hr]
          rw [this] at hres
          cases hres

/-- An oracle that rejects the credentialed attempt and accepts (with
`NotFound`) the unauthenticated one. -/
def authNet : FetchOracle := fun _ tok =>
  match tok with
  | some _ => .ok .unauthorized
  | none => .ok .notFound

/-- A client configured with a token, still considered valid. -/
def tokClient : ClientInner :=
  { release_artifacts := []
    shared := { retry_after := none, auth_token := some (strBytes "tok")
                is_auth_token_valid := true } }

/-- A client whose token has already been found invalid. -/
def invalidTokClient : ClientInner :=
  { release_artifacts := []
    shared := { retry_after := none, auth_token := some (strBytes "tok")
                is_auth_token_valid := false } }

/-- Witness for C5: the rejected credentialed attempt triggers exactly
one unauthenticated attempt and flips the flag; a later call skips the
credentialed path. -/
theorem auth_downgrade_behavior_witness :
    ((has_release_artifact authNet 0 ⟨cRel, strBytes "a"⟩ tokClient).attempts
        = [some (strBytes "tok"), none]
      ∧ (has_release_artifact authNet 0 ⟨cRel, strBytes "a"⟩ tokClient).state.shared.is_auth_token_valid = false)
    ∧ (∀ t ∈ (has_release_artifact authNet 1 ⟨cRel, strBytes "a"⟩
        invalidTokClient).attempts, t = none) := by
  constructor
  · exact (auth_downgrade_behavior authNet 0 ⟨cRel, strBytes "a"⟩
      tokClient).1 (strBytes "tok") rfl rfl rfl (by decide) rfl
  · exact (auth_downgrade_behavior authNet 1 ⟨cRel, strBytes "a"⟩
      invalidTokClient).2.1 rfl

/-- C8 (corrected): a failed computation is *not* recorded in the cache
entry — the cell stays uninitialized and the subsequent call re-runs the
computation (performing fresh network attempts when the gate allows)
rather than observing a recorded failure. -/
theorem failed_computation_not_recorded (net : FetchOracle)
    (now now2 : Nat) (ref : GhReleaseArtifact) (st : ClientInner)
    (e : GhApiError)
    (hmiss : cacheLookup st.release_artifacts ref.release = none)
    (herr : (has_release_artifact net now ref st).result = .error e) :
    cacheLookup
        ((has_release_artifact net now ref st).state.release_artifacts)
        ref.release = none
    ∧ (has_release_artifact net now2 ref
        (has_release_artifact net now ref st).state).attempts ≠ [] := by
  have hr : (compute_release_artifacts net now ref.release st.shared).res
      = .error (.error e) := by
    cases hr : (compute_release_artifacts net now ref.release st.shared).res
      with
    | ok v =>
      exfalso
      have : (has_release_artifact net now ref st).result
          = .ok (translateValue v ref.artifact_name) := by
        simp [has_release_artifact, hmiss, hr]
      rw [this] at herr
      cases herr
    | error e1 =>
      cases e1 with
      | error e2 =>
        have : (has_release_artifact net now ref st).result = .error e2 := by
          simp [has_release_artifact, hmiss, hr]
        rw [this] at herr
        injection herr with herr
        rw [herr]
      | rateLimit d =>
        exfalso
        have : (has_release_artifact net now ref st).result
            = .ok (.rateLimit d) := by
          simp [has_release_artifact, hmiss, hr]
        rw [this] at herr
        cases herr
      | unauthorized =>
        exfalso
        have : (has_release_artifact net now ref st).result
            = .ok .unauthorized := by
          simp [has_release_artifact, hmiss, hr]
        rw [this] at herr
        cases herr
  have hstate : (has_release_artifact net now ref st).state
      = { release_artifacts := st.release_artifacts
          shared := (compute_release_artifacts net now ref.release
            st.shared).shared } := by
    simp [has_release_artifact, hmiss, hr]
  constructor
  · rw [hstate]
    exact hmiss
  · have hgate2 : (has_release_artifact net now ref st).state.shared.retry_after
        = none := by
      rw [hstate]
      exact compute_error_retry_none net now ref.release st.shared e hr
    have hmiss2 : cacheLookup
        ((has_release_artifact net now ref st).state.release_artifacts)
        ref.release = none := by
      rw [hstate]
      exact hmiss
    rw [has_miss_attempts net now2 ref _ hmiss2]
    rw [compute_release_artifacts]
    simp only [hgate2]
    exact compute_body_attempts_ne net now2 ref.release _

/-- Release and client used in the C8 counterexample. -/
def c8Ref : GhReleaseArtifact :=
  { release := { owner := strBytes "o", repo := strBytes "r"
                 tag := strBytes "t" }
    artifact_name := strBytes "a" }

/-- Counterexample to C8 as stated: after a failed (transport-error)
computation, no failure is recorded for the key — the cache still has no
entry — and a repeated call for the same key performs a fresh network
attempt instead of observing a recorded failure. -/
theorem failed_computation_recorded_counterexample :
    (has_release_artifact failNet 0 c8Ref freshClient).result
        = .error (.remote 7)
    ∧ cacheLookup
        ((has_release_artifact failNet 0 c8Ref freshClient).state.release_artifacts) c8Ref.release = none
    ∧ (has_release_artifact failNet 1 c8Ref
        (has_release_artifact failNet 0 c8Ref freshClient).state).attempts
      = [none] := by
  refine ⟨?_, ?_, ?_⟩ <;> decide

/-- Witness for the amended C8 at concrete inputs. -/
theorem failed_computation_not_recorded_witness :
    cacheLookup
        ((has_release_artifact failNet 0 c8Ref freshClient).state.release_artifacts) c8Ref.release = none
    ∧ (has_release_artifact failNet 1 c8Ref
        (has_release_artifact failNet 0 c8Ref freshClient).state).attempts
      ≠ [] :=
  failed_computation_not_recorded failNet 0 1 c8Ref freshClient (.remote 7)
    (by decide) (by decide)

/-! ## Concurrent callers and the single-flight cell

`has_release_artifact` runs its closure through
`tokio::sync::OnceCell::get_or_try_init`, whose documented contract is:
at most one task runs the initialization closure at a time; other tasks
for the same cell wait; an `Ok` value is stored permanently and handed to
every waiter; on `Err` the error is returned to the task that ran the
closure, the cell remains uninitialized, and a waiting task then runs its
own closure.  For callers of one release key this is modelled as an
interleaving transition system: each caller (task) queries one artifact
name of the same release; a task either runs the closure (when the cell
is uninitialized — the closure runs under the cell's mutual exclusion, so
it is one atomic step here) or reads the initialized cell. -/

/-- The status of one concurrent caller. -/
inductive TaskState where
  | pending
  | done (r : Except GhApiError HasReleaseArtifact)
  deriving DecidableEq, Repr

/-- Global state of the concurrent system for one release key: the
`OnceCell` content, the shared gates, each caller's status (paired with
the artifact name it queries), and the total number of network attempts
performed. -/
structure ConcState where
  cell : Option (Option Artifacts)
  shared : SharedState
  tasks : List (Bytes × TaskState)
  fetches : Nat
  deriving DecidableEq, Repr

/-- Task `i` runs the closure and completes
(`get_or_try_init` ran its closure; the post-processing of
`has_release_artifact` lines 211-224 is applied to its outcome). -/
def concComputeStep (net : FetchOracle) (now : Nat) (release : GhRelease)
    (s : ConcState) (i : Nat) (name : Bytes) : ConcState :=
  match (compute_release_artifacts net now release s.shared).res with
  | .ok v =>
    { cell := some v
      shared := (compute_release_artifacts net now release s.shared).shared
      tasks := s.tasks.set i (name, .done (.ok (translateValue v name)))
      fetches := s.fetches
        + (compute_release_artifacts net now release s.shared).attempts.length }
  | .error .unauthorized =>
    { cell := s.cell
      shared := (compute_release_artifacts net now release s.shared).shared
      tasks := s.tasks.set i (name, .done (.ok .unauthorized))
      fetches := s.fetches
        + (compute_release_artifacts net now release s.shared).attempts.length }
  | .error (.rateLimit d) =>
    { cell := s.cell
      shared := { (compute_release_artifacts net now release s.shared).shared
                  with retry_after := some d }
      tasks := s.tasks.set i (name, .done (.ok (.rateLimit d)))
      fetches := s.fetches
        + (compute_release_artifacts net now release s.shared).attempts.length }
  | .error (.error e) =>
    { cell := s.cell
      shared := (compute_release_artifacts net now release s.shared).shared
      tasks := s.tasks.set i (name, .done (.error e))
      fetches := s.fetches
        + (compute_release_artifacts net now release s.shared).attempts.length }

/-- Task `i` observes the initialized cell value and completes without
running the closure. -/
def concReadStep (s : ConcState) (i : Nat) (name : Bytes)
    (v : Option Artifacts) : ConcState :=
  { s with tasks := s.tasks.set i (name, .done (.ok (translateValue v name))) }

/-- One interleaving step: a pending task either initializes the cell
(only possible while it is uninitialized) or reads the initialized
value. -/
inductive ConcStep (net : FetchOracle) (now : Nat) (release : GhRelease) :
    ConcState → ConcState → Prop where
  | compute (s : ConcState) (i : Nat) (name : Bytes)
      (hi : s.tasks.get? i = some (name, .pending)) (hcell : s.cell = none) :
      ConcStep net now release s (concComputeStep net now release s i name)
  | read (s : ConcState) (i : Nat) (name : Bytes) (v : Option Artifacts)
      (hi : s.tasks.get? i = some (name, .pending))
      (hcell : s.cell = some v) :
      ConcStep net now release s (concReadStep s i name v)

/-- Every caller has completed. -/
def allDone (s : ConcState) : Prop :=
  ∀ p ∈ s.tasks, p.2 ≠ TaskState.pending

instance (s : ConcState) : Decidable (allDone s) :=
  inferInstanceAs (Decidable (∀ p ∈ s.tasks, p.2 ≠ TaskState.pending))

/-- Initial state: uninitialized cell, one pending task per queried
name, no fetches yet. -/
def initConc (sh : SharedState) (names : List Bytes) : ConcState :=
  { cell := none, shared := sh
    tasks := names.map (fun n => (n, .pending)), fetches := 0 }

/-- The closure against an oracle that answers `Success idx`: one network
attempt, result `Ok (Some idx)`, shared state untouched. -/
theorem compute_success_oracle (net : FetchOracle) (now : Nat)
    (release : GhRelease) (sh : SharedState) (idx : Artifacts)
    (hnet : ∀ tok, net release tok = .ok (.success idx))
    (hgate : sh.retry_after = none) :
    (compute_release_artifacts net now release sh).res = .ok (some idx)
    ∧ (compute_release_artifacts net now release sh).shared = sh
    ∧ (compute_release_artifacts net now release sh).attempts.length = 1 := by
  have hdf : ∀ tok, do_fetch_release_artifacts net now release tok
      = .ok (some idx) := by
    intro tok
    rw [do_fetch_release_artifacts, hnet tok]
  rw [compute_release_artifacts]
  simp only [hgate]
  rw [compute_body]
  by_cases hv : sh.is_auth_token_valid = true
  · rw [if_pos hv, hdf]
    exact ⟨rfl, rfl, rfl⟩
  · rw [if_neg hv]
    rw [hdf]
    exact ⟨rfl, rfl, rfl⟩

/-- Task-list invariant: the names are preserved positionally, and every
task is pending or done with the translation of the (unique) published
value for its name. -/
def tasksOk (names : List Bytes) (idx : Artifacts)
    (ts : List (Bytes × TaskState)) : Prop :=
  ts.length = names.length ∧
  ∀ i name st', ts.get? i = some (name, st') →
    names.get? i = some name
    ∧ (st' = .pending ∨ st' = .done (.ok (translateValue (some idx) name)))

theorem tasksOk_set_done (names : List Bytes) (idx : Artifacts)
    (ts : List (Bytes × TaskState)) (i : Nat) (name : Bytes)
    (h : tasksOk names idx ts)
    (hi : ts.get? i = some (name, .pending)) :
    tasksOk names idx
      (ts.set i (name, .done (.ok (translateValue (some idx) name)))) := by
  obtain ⟨hlen, ht⟩ := h
  have hlt : i < ts.length := by
    by_contra hge
    rw [List.get?_eq_none.2 (by omega)] at hi
    cases hi
  refine ⟨by rw [List.length_set, hlen], ?_⟩
  intro j n st' hj
  by_cases hij : i = j
  · subst hij
    have h2 : (ts.set i
        (name, TaskState.done (.ok (translateValue (some idx) name)))).get? i
        = some (name, TaskState.done (.ok (translateValue (some idx) name))) := by
      rw [List.get?_set_eq, List.get?_eq_get hlt]
      simp
    rw [h2] at hj
    injection hj with hj
    injection hj with hj1 hj2
    subst hj1
    exact ⟨(ht i name .pending hi).1, Or.inr hj2.symm⟩
  · rw [List.get?_set_ne _ _ hij] at hj
    exact ht j n st' hj

/-- The invariant of a run against a `Success idx` oracle: either nothing
has happened (cell empty, no fetches, all pending), or exactly one
closure ran, published `Some idx`, and made exactly one network
attempt. -/
def successInv (sh0 : SharedState) (names : List Bytes) (idx : Artifacts)
    (s : ConcState) : Prop :=
  tasksOk names idx s.tasks ∧ s.shared = sh0 ∧
  ((s.cell = none ∧ s.fetches = 0
      ∧ ∀ i name st', s.tasks.get? i = some (name, st') →
          st' = TaskState.pending)
   ∨ (s.cell = some (some idx) ∧ s.fetches = 1))

theorem successInv_step (net : FetchOracle) (now : Nat) (release : GhRelease)
    (sh0 : SharedState) (names : List Bytes) (idx : Artifacts)
    (hnet : ∀ tok, net release tok = .ok (.success idx))
    (hgate : sh0.retry_after = none)
    (s s' : ConcState) (hinv : successInv sh0 names idx s)
    (hstep : ConcStep net now release s s') :
    successInv sh0 names idx s' := by
  obtain ⟨htasks, hsh, hdisj⟩ := hinv
  cases hstep with
  | compute i name hi hcell =>
    rcases hdisj with ⟨-, hf, -⟩ | ⟨hcell2, -⟩
    · obtain ⟨hres, hshared, hatt⟩ := compute_success_oracle net now release
        s.shared idx hnet (by rw [hsh]; exact hgate)
      have hstep_eq : concComputeStep net now release s i name
          = { cell := some (some idx)
              shared := (compute_release_artifacts net now release s.shared).shared
              tasks := s.tasks.set i
                (name, .done (.ok (translateValue (some idx) name)))
              fetches := s.fetches + (compute_release_artifacts net now release
                s.shared).attempts.length } := by
        rw [concComputeStep]
        simp only [hres]
      rw [hstep_eq]
      refine ⟨tasksOk_set_done names idx s.tasks i name htasks hi, ?_, ?_⟩
      · rw [hshared, hsh]
      · right
        exact ⟨rfl, by rw [hf, hatt]⟩
    · rw [hcell] at hcell2
      cases hcell2
  | read i name v hi hcell =>
    rcases hdisj with ⟨hc1, -, -⟩ | ⟨hcell2, hf⟩
    · rw [hcell] at hc1
      cases hc1
    · have hv : v = some idx := by
        rw [hcell] at hcell2
        injection hcell2
      subst hv
      exact ⟨tasksOk_set_done names idx s.tasks i name htasks hi, hsh,
        Or.inr ⟨hcell2, hf⟩⟩

theorem successInv_reachable (net : FetchOracle) (now : Nat)
    (release : GhRelease) (sh0 : SharedState) (names : List Bytes)
    (idx : Artifacts)
    (hnet : ∀ tok, net release tok = .ok (.success idx))
    (hgate : sh0.retry_after = none)
    (s : ConcState)
    (hreach : Relation.ReflTransGen (ConcStep net now release)
      (initConc sh0 names) s) :
    successInv sh0 names idx s := by
  induction hreach with
  | refl =>
    refine ⟨⟨by simp [initConc], ?_⟩, rfl, Or.inl ⟨rfl, rfl, ?_⟩⟩
    · intro i name st' hj
      rw [initConc] at hj
      simp only [List.get?_map] at hj
      cases hn : names.get? i with
      | none =>
        rw [hn] at hj
        cases hj
      | some n =>
        rw [hn] at hj
        simp only [Option.map_some'] at hj
        injection hj with hj
        injection hj with hj1 hj2
        refine ⟨?_, Or.inl hj2.symm⟩
        rw [hj1]
    · intro i name st' hj
      rw [initConc] at hj
      simp only [List.get?_map] at hj
      cases hn : names.get? i with
      | none =>
        rw [hn] at hj
        cases hj
      | some n =>
        rw [hn] at hj
        simp only [Option.map_some'] at hj
        injection hj with hj
        injection hj with hj1 hj2
        exact hj2.symm
  | tail hsteps hstep ih =>
    exact successInv_step net now release sh0 names idx hnet hgate _ _ ih hstep

/-- C2 (amended): for concurrent callers of the same release against an
oracle answering `Success idx`, every completed interleaving performed
exactly one network fetch (one caller ran the computation; every other
caller observed its published value rather than recomputing), each caller
got the translation of the one published value for its artifact name, and
in particular every caller whose name is in the index resolved to
`Yes`/Found with that artifact's URL. -/
theorem single_flight_success_exactly_one_fetch (net : FetchOracle)
    (now : Nat) (release : GhRelease) (names : List Bytes)
    (idx : Artifacts) (sh0 : SharedState)
    (hnet : ∀ tok, net release tok = .ok (.success idx))
    (hgate : sh0.retry_after = none)
    (hne : names ≠ [])
    (s : ConcState)
    (hreach : Relation.ReflTransGen (ConcStep net now release)
      (initConc sh0 names) s)
    (hdone : allDone s) :
    s.fetches = 1
    ∧ (∀ i name st', s.tasks.get? i = some (name, st') →
        st' = .done (.ok (translateValue (some idx) name)))
    ∧ (∀ i name st' url, s.tasks.get? i = some (name, st') →
        get_artifact_url idx name = some url →
        st' = .done (.ok (.yes url))) := by
  obtain ⟨⟨hlen, htasks⟩, -, hdisj⟩ :=
    successInv_reachable net now release sh0 names idx hnet hgate s hreach
  have hdisj2 : s.cell = some (some idx) ∧ s.fetches = 1 := by
    rcases hdisj with ⟨-, -, hpend⟩ | h2
    · exfalso
      have hlen0 : 0 < s.tasks.length := by
        rw [hlen]
        exact List.length_pos.2 hne
      obtain ⟨p, hp⟩ : ∃ p, s.tasks.get? 0 = some p := by
        cases hts : s.tasks with
        | nil =>
          rw [hts] at hlen0
          cases hlen0
        | cons hd tl => exact ⟨hd, rfl⟩
      have hpend0 := hpend 0 p.1 p.2 (by rw [hp])
      exact hdone p (List.get?_mem hp) hpend0
    · exact h2
  refine ⟨hdisj2.2, ?_, ?_⟩
  · intro i name st' hi
    rcases (htasks i name st' hi).2 with hpend | hdone'
    · exact absurd hpend (hdone _ (List.get?_mem hi))
    · exact hdone'
  · intro i name st' url hi hurl
    rcases (htasks i name st' hi).2 with hpend | hdone'
    · exact absurd hpend (hdone _ (List.get?_mem hi))
    · rw [hdone']
      simp [translateValue, hurl]

/-- Index and oracle for the `{a, b, c}` scenario. -/
def abcIdx : Artifacts :=
  [(strBytes "a", strBytes "url-a"), (strBytes "b", strBytes "url-b"),
   (strBytes "c", strBytes "url-c")]

def abcNet : FetchOracle := fun _ _ => .ok (.success abcIdx)

def abcNames : List Bytes := [strBytes "a", strBytes "b", strBytes "c"]

def abcInit : ConcState := initConc freshShared abcNames

/-- A completed interleaving: task 0 computes, tasks 1 and 2 read. -/
def abcFinal : ConcState :=
  concReadStep
    (concReadStep
      (concComputeStep abcNet 0 c8Ref.release abcInit 0 (strBytes "a"))
      1 (strBytes "b") (some abcIdx))
    2 (strBytes "c") (some abcIdx)

/-- Witness for the amended C2 at the concrete `{a, b, c}` scenario. -/
theorem single_flight_success_exactly_one_fetch_witness :
    abcFinal.fetches = 1
    ∧ (∀ i name st', abcFinal.tasks.get? i = some (name, st') →
        st' = .done (.ok (translateValue (some abcIdx) name)))
    ∧ (∀ i name st' url, abcFinal.tasks.get? i = some (name, st') →
        get_artifact_url abcIdx name = some url →
        st' = .done (.ok (.yes url))) :=
  single_flight_success_exactly_one_fetch abcNet 0 c8Ref.release abcNames
    abcIdx freshShared (fun _ => rfl) rfl (by decide) abcFinal
    (Relation.ReflTransGen.head
      (ConcStep.compute abcInit 0 (strBytes "a") (by decide) rfl)
      (Relation.ReflTransGen.head
        (ConcStep.read _ 1 (strBytes "b") (some abcIdx) (by decide) (by decide))
        (Relation.ReflTransGen.head
          (ConcStep.read _ 2 (strBytes "c") (some abcIdx) (by decide)
            (by decide))
          Relation.ReflTransGen.refl)))
    (by decide)

/-- Two concurrent callers for the same release against a failing
oracle. -/
def errInit2 : ConcState :=
  initConc freshShared [strBytes "a", strBytes "a"]

/-- A completed interleaving in which both callers run the computation:
the first closure fails, the cell stays uninitialized, and the second
caller recomputes (tokio `OnceCell` waiter takeover). -/
def errFinal2 : ConcState :=
  concComputeStep failNet 0 c8Ref.release
    (concComputeStep failNet 0 c8Ref.release errInit2 0 (strBytes "a"))
    1 (strBytes "a")

/-- Counterexample to C2 as stated: when the computation fails, the
waiting caller does not merely observe the first caller's result — it
re-runs the computation, so a completed execution with two concurrent
callers for the same release performs two network fetch sequences, not
exactly one. -/
theorem single_flight_failure_recompute_counterexample :
    Relation.ReflTransGen (ConcStep failNet 0 c8Ref.release)
        errInit2 errFinal2
    ∧ allDone errFinal2
    ∧ errFinal2.fetches = 2 :=
  ⟨Relation.ReflTransGen.head
      (ConcStep.compute errInit2 0 (strBytes "a") (by decide) rfl)
      (Relation.ReflTransGen.head
        (ConcStep.compute _ 1 (strBytes "a") (by decide) (by decide))
        Relation.ReflTransGen.refl),
    by decide, by decide⟩

end Binstalk
